import Mathlib

/-! Verification development for the KR LITE price-revaluation effect engine,
    a shallow embedding of src/calculator.py.

    Modelling conventions: calendar days are integers with day 0 a Monday,
    so the Monday of the week of day d is d - d % 7 (Euclidean mod, matching
    the Python % operator); a week is identified with its Monday.  Money,
    prices and quantities are rationals.  Pandas tables are lists of typed
    rows; groupby aggregations are sums over filtered lists. -/

namespace KRLite

/-- Python weekday() with the day-zero-is-Monday convention: d mod 7. -/
def weekday (d : ℤ) : ℤ := Int.emod d 7

/-- week_start alignment: date - Timedelta(days=date.weekday()), the Monday
    of the week containing day d. -/
def weekMonday (d : ℤ) : ℤ := d - Int.emod d 7

/-- Python abs on rationals. -/
def qabs (x : ℚ) : ℚ := if x < 0 then -x else x

/-- Prefix test on strings, as Python str.startswith. -/
def strStartsWith (s pre : String) : Bool := pre.data.isPrefixOf s.data

/-- Stable insertion of an element into a list relative to a Boolean
    less-or-equal test. -/
def insortBy (le : α → α → Bool) (a : α) : List α → List α
  | [] => [a]
  | b :: l => if le a b then a :: b :: l else b :: insortBy le a l

/-- Stable sort (insertion sort), modelling pandas sort_values. -/
def sortBy (le : α → α → Bool) (l : List α) : List α :=
  l.foldr (insortBy le) []

/-- First-occurrence deduplication with an accumulator of already-seen
    elements (models iterating a dict or set of keys in insertion order). -/
def uniqAux [DecidableEq α] : List α → List α → List α
  | _, [] => []
  | seen, a :: l =>
    if a ∈ seen then uniqAux seen l else a :: uniqAux (a :: seen) l

def uniqList [DecidableEq α] (l : List α) : List α := uniqAux [] l

/-- Mondays from a to b inclusive in 7-day steps (pd.date_range with
    freq W-MON between two Monday-aligned endpoints). -/
def weekRange (a b : ℤ) : List ℤ :=
  if a ≤ b then (List.range ((b - a).toNat / 7 + 1)).map (fun k : ℕ => a + 7 * (k : ℤ))
  else []

/-! ### Plan-price rounding (round_price, src/calculator.py lines 289-317) -/

/-- round_direction parameter of the plan-price rounding policy. -/
inductive RoundDir where
  | up
  | down
  | nearest
  deriving Repr, DecidableEq

/-- round_price: round a positive price to the value whose fractional part is
    round_value/100, per the up/down/nearest policy.  Whole prices
    (fractional part below 1e-6) and prices already within 0.01 of the
    target fraction are returned unchanged; non-positive or missing input
    yields none, as the Python function returns None. -/
def roundPrice (roundValue : ℕ) (dir : RoundDir) (price : ℚ) : Option ℚ :=
  if price ≤ 0 then none
  else if price - (⌊price⌋ : ℚ) < 1 / 1000000 then some ((⌊price⌋ : ℚ))
  else if qabs (price - (⌊price⌋ : ℚ) - (roundValue : ℚ) / 100) < 1 / 100 then some price
  else
    if dir = RoundDir.nearest then
      if qabs (price - ((⌊price⌋ : ℚ) + (roundValue : ℚ) / 100)) ≤
          qabs (price - (((⌊price⌋ : ℚ) + 1) + (roundValue : ℚ) / 100)) then
        some ((⌊price⌋ : ℚ) + (roundValue : ℚ) / 100)
      else some (((⌊price⌋ : ℚ) + 1) + (roundValue : ℚ) / 100)
    else if dir = RoundDir.down then
      if (roundValue : ℚ) / 100 ≤ price - (⌊price⌋ : ℚ) then
        some ((⌊price⌋ : ℚ) + (roundValue : ℚ) / 100)
      else some (((⌊price⌋ : ℚ) - 1) + (roundValue : ℚ) / 100)
    else
      if price - (⌊price⌋ : ℚ) ≤ (roundValue : ℚ) / 100 then
        some ((⌊price⌋ : ℚ) + (roundValue : ℚ) / 100)
      else some (((⌊price⌋ : ℚ) + 1) + (roundValue : ℚ) / 100)

/-! ### Input data model: the three parsed datasets -/

/-- One row of the sales sheet (a transaction). -/
structure SaleTxn where
  productId : ℕ
  recordedOn : ℤ
  price : ℚ
  quantity : ℚ
  deriving Repr, DecidableEq

/-- One row of the cost/stock history sheet. -/
structure CostRecord where
  productId : ℕ
  date : ℤ
  cost : ℚ
  stock : ℚ
  deriving Repr, DecidableEq

/-- One row of the test-prices sheet (a price-change order). -/
structure PriceRow where
  productId : ℕ
  newPriceStart : ℤ
  newPrice : ℚ
  deriving Repr, DecidableEq

/-- The three input datasets held by EffectCalculator. -/
structure CalcData where
  testPrices : List PriceRow
  sales : List SaleTxn
  costs : List CostRecord
  deriving Repr, DecidableEq

/-! ### preprocess, part 1: cost-at-sale resolution (lines 18-52) -/

/-- Sales sorted by transaction date (sort_values on recorded_on). -/
def salesSorted (s : CalcData) : List SaleTxn :=
  sortBy (fun a b => decide (a.recordedOn ≤ b.recordedOn)) s.sales

/-- Cost records sorted by date (sort_values on date). -/
def costsSorted (s : CalcData) : List CostRecord :=
  sortBy (fun a b => decide (a.date ≤ b.date)) s.costs

/-- Accumulator step of the backward (on-or-before) nearest-date match:
    keep the latest-dated record of the product dated at most d, preferring
    later rows on equal dates as pd.merge_asof backward does. -/
def bwStep (pid : ℕ) (d : ℤ) : Option CostRecord → CostRecord → Option CostRecord
  | none, c => if c.productId = pid ∧ c.date ≤ d then some c else none
  | some b, c =>
    if c.productId = pid ∧ c.date ≤ d then
      (if b.date ≤ c.date then some c else some b)
    else some b

/-- Backward (on-or-before) nearest-date cost match of merge_asof. -/
def backwardCost (costs : List CostRecord) (pid : ℕ) (d : ℤ) : Option CostRecord :=
  costs.foldl (bwStep pid d) none

/-- Accumulator step of the forward (on-or-after) match: keep the
    earliest-dated record of the product dated at least d, preferring
    earlier rows on equal dates. -/
def fwStep (pid : ℕ) (d : ℤ) : Option CostRecord → CostRecord → Option CostRecord
  | none, c => if c.productId = pid ∧ d ≤ c.date then some c else none
  | some b, c =>
    if c.productId = pid ∧ d ≤ c.date then
      (if c.date < b.date then some c else some b)
    else some b

/-- Forward (on-or-after) nearest-date cost match of merge_asof. -/
def forwardCost (costs : List CostRecord) (pid : ℕ) (d : ℤ) : Option CostRecord :=
  costs.foldl (fwStep pid d) none

/-- cost_at_sale: backward match, then forward match, then 0
    (lines 24-45: merge_asof backward, fillna with forward, fillna 0). -/
def costAtSale (s : CalcData) (t : SaleTxn) : ℚ :=
  match backwardCost (costsSorted s) t.productId t.recordedOn with
  | some c => c.cost
  | none =>
    match forwardCost (costsSorted s) t.productId t.recordedOn with
    | some c => c.cost
    | none => 0

/-- The sales table augmented with cost_at_sale, in date-sorted order. -/
def resolveCosts (s : CalcData) : List (SaleTxn × ℚ) :=
  (salesSorted s).map (fun t => (t, costAtSale s t))

/-! ### preprocess, part 2: weekly aggregation (lines 54-112) -/

/-- Latest transaction date in the sales sheet. -/
def maxSaleDate (s : CalcData) : Option ℤ := (s.sales.map (fun t => t.recordedOn)).max?

/-- Whole-week truncation (lines 101-112): when the last observed sales day
    is not a Sunday, all rows of the trailing partial week (and later) are
    dropped from the weekly tables. -/
def weekKept (s : CalcData) (w : ℤ) : Bool :=
  match maxSaleDate s with
  | none => true
  | some m => if Int.emod m 7 = 6 then true else decide (w < weekMonday m)

/-- Transactions of one product in one week, in date order. -/
def txnsFor (s : CalcData) (pid : ℕ) (w : ℤ) : List SaleTxn :=
  (salesSorted s).filter
    (fun t => decide (t.productId = pid) && decide (weekMonday t.recordedOn = w))

/-- Weekly revenue aggregate of one product: sum of price times quantity. -/
def weeklyRevenue (s : CalcData) (pid : ℕ) (w : ℤ) : ℚ :=
  ((txnsFor s pid w).map (fun t => t.price * t.quantity)).sum

/-- Weekly quantity aggregate of one product. -/
def weeklyQuantity (s : CalcData) (pid : ℕ) (w : ℤ) : ℚ :=
  ((txnsFor s pid w).map (fun t => t.quantity)).sum

/-- Weekly cost volume of one product: sum of cost_at_sale times quantity. -/
def weeklyCostVolume (s : CalcData) (pid : ℕ) (w : ℤ) : ℚ :=
  ((txnsFor s pid w).map (fun t => costAtSale s t * t.quantity)).sum

/-- Whether the weekly_sales table has a row for (pid, w): some transaction
    exists in the week and the week survives truncation. -/
def hasWeeklyRow (s : CalcData) (pid : ℕ) (w : ℤ) : Bool :=
  !(txnsFor s pid w).isEmpty && weekKept s w

/-- The weekly_sales row (revenue, quantity, cost_volume) when present. -/
def weeklyRow? (s : CalcData) (pid : ℕ) (w : ℤ) : Option (ℚ × ℚ × ℚ) :=
  if hasWeeklyRow s pid w then
    some (weeklyRevenue s pid w, weeklyQuantity s pid w, weeklyCostVolume s pid w)
  else none

/-- Revenue summed over the weekly_sales selection for (pid, w): the row
    value when the row exists, otherwise 0 (a pandas sum over an empty
    selection). -/
def weeklyRevenueD (s : CalcData) (pid : ℕ) (w : ℤ) : ℚ :=
  if weekKept s w then weeklyRevenue s pid w else 0

def weeklyQuantityD (s : CalcData) (pid : ℕ) (w : ℤ) : ℚ :=
  if weekKept s w then weeklyQuantity s pid w else 0

def weeklyCostVolumeD (s : CalcData) (pid : ℕ) (w : ℤ) : ℚ :=
  if weekKept s w then weeklyCostVolume s pid w else 0

/-- Test product ids: the distinct product ids of the test-prices sheet. -/
def testPidsOf (s : CalcData) : List ℕ :=
  uniqList (s.testPrices.map (fun r => r.productId))

/-- Control-group transactions: products never present in the price-change
    sheet (lines 66-68 and 79). -/
def controlTxns (s : CalcData) : List SaleTxn :=
  s.sales.filter (fun t => !(testPidsOf s).contains t.productId)

/-- Control-group weekly revenue, 0 for truncated or absent weeks. -/
def controlRevenueD (s : CalcData) (w : ℤ) : ℚ :=
  if weekKept s w then
    (((controlTxns s).filter (fun t => decide (weekMonday t.recordedOn = w))).map
      (fun t => t.price * t.quantity)).sum
  else 0

/-- Control-group weekly cost volume, 0 for truncated or absent weeks. -/
def controlCostVolumeD (s : CalcData) (w : ℤ) : ℚ :=
  if weekKept s w then
    (((controlTxns s).filter (fun t => decide (weekMonday t.recordedOn = w))).map
      (fun t => costAtSale s t * t.quantity)).sum
  else 0

/-- Weeks of the control weekly table, unique and ascending. -/
def controlWeeks (s : CalcData) : List ℤ :=
  sortBy (fun a b => decide (a ≤ b))
    ((uniqList ((controlTxns s).map (fun t => weekMonday t.recordedOn))).filter
      (fun w => weekKept s w))

/-- stock_days_lookup (lines 94-99): number of cost/stock rows of the
    product in the week with positive stock; built before truncation and
    never rebuilt, hence no weekKept filter. -/
def stockDaysLookup (s : CalcData) (pid : ℕ) (w : ℤ) : ℕ :=
  (s.costs.filter (fun c =>
    decide (c.productId = pid) && decide (weekMonday c.date = w) &&
      decide (0 < c.stock))).length

/-- stock_lookup (lines 89-92, truncated at 108-112): mean stock level over
    the week's cost rows, defaulting to 0 when absent. -/
def stockLookupD (s : CalcData) (pid : ℕ) (w : ℤ) : ℚ :=
  if weekKept s w then
    (if (s.costs.filter (fun c =>
          decide (c.productId = pid) && decide (weekMonday c.date = w))).isEmpty then 0
     else (((s.costs.filter (fun c =>
          decide (c.productId = pid) && decide (weekMonday c.date = w))).map
            (fun c => c.stock)).sum) /
       (((s.costs.filter (fun c =>
          decide (c.productId = pid) && decide (weekMonday c.date = w))).length : ℚ)))
  else 0

/-- Last week of the truncated weekly_sales table. -/
def lastDataWeek (s : CalcData) : Option ℤ :=
  ((uniqList (s.sales.map (fun t => weekMonday t.recordedOn))).filter
    (fun w => weekKept s w)).max?

/-! ### PreTestWindowSelector (find_valid_pre_test_period, lines 120-155) -/

/-- Validity test of a contiguous candidate window: no week may have fewer
    than minDays stock-days (the inner for-loop with early break). -/
def windowOk (s : CalcData) (pid : ℕ) (minDays : ℚ) (ws : List ℤ) : Bool :=
  ws.all (fun w => !decide ((stockDaysLookup s pid w : ℚ) < minDays))

/-- The contiguous search loop (lines 126-140): try the n-week window
    ending at the current end-week, else shift one week earlier, for at
    most fuel candidate end-weeks. -/
def contigLoop (s : CalcData) (pid : ℕ) (nWeeks : ℕ) (minDays : ℚ) :
    ℕ → ℤ → Option (List ℤ)
  | 0, _ => none
  | fuel + 1, endWeek =>
    if windowOk s pid minDays (weekRange (endWeek - 7 * ((nWeeks : ℤ) - 1)) endWeek) then
      some (weekRange (endWeek - 7 * ((nWeeks : ℤ) - 1)) endWeek)
    else contigLoop s pid nWeeks minDays fuel (endWeek - 7)

/-- The scattered search loop (lines 143-153): walk back week by week
    collecting individually valid weeks until nWeeks are found. -/
def scatterLoop (s : CalcData) (pid : ℕ) (nWeeks : ℕ) (minDays : ℚ) :
    ℕ → ℤ → List ℤ → Option (List ℤ)
  | 0, _, _ => none
  | fuel + 1, w, acc =>
    let acc2 := if ¬ ((stockDaysLookup s pid w : ℚ) < minDays) then acc ++ [w] else acc
    if acc2.length = nWeeks then some (sortBy (fun a b => decide (a ≤ b)) acc2)
    else scatterLoop s pid nWeeks minDays fuel (w - 7) acc2

/-- find_valid_pre_test_period: contiguous mode tries up to 26 candidate
    end-weeks; scattered mode walks back up to 52 weeks. -/
def findValidPreTestPeriod (s : CalcData) (pid : ℕ) (startSearchWeek : ℤ)
    (nWeeks : ℕ) (thresholdPct : ℚ) (contiguous : Bool) : Option (List ℤ) :=
  if contiguous then
    contigLoop s pid nWeeks (7 * (thresholdPct / 100)) 26 startSearchWeek
  else scatterLoop s pid nWeeks (7 * (thresholdPct / 100)) 52 startSearchWeek []

/-- The candidate window of the contiguous search after i one-week shifts. -/
def windowAt (startSearchWeek : ℤ) (nWeeks : ℕ) (i : ℕ) : List ℤ :=
  weekRange (startSearchWeek - 7 * (i : ℤ) - 7 * ((nWeeks : ℤ) - 1))
    (startSearchWeek - 7 * (i : ℤ))

/-- Concrete dataset for Scenario A: product 1 has positive stock on 7, 7,
    6 and 7 days of the four candidate pre-test weeks -21, -14, -7 and 0
    (the 6-day week -7 lacks a record for day -1). -/
def cdataC2 : CalcData :=
  { testPrices := []
    sales := []
    costs :=
      [⟨1, -21, 0, 1⟩, ⟨1, -20, 0, 1⟩, ⟨1, -19, 0, 1⟩, ⟨1, -18, 0, 1⟩,
       ⟨1, -17, 0, 1⟩, ⟨1, -16, 0, 1⟩, ⟨1, -15, 0, 1⟩,
       ⟨1, -14, 0, 1⟩, ⟨1, -13, 0, 1⟩, ⟨1, -12, 0, 1⟩, ⟨1, -11, 0, 1⟩,
       ⟨1, -10, 0, 1⟩, ⟨1, -9, 0, 1⟩, ⟨1, -8, 0, 1⟩,
       ⟨1, -7, 0, 1⟩, ⟨1, -6, 0, 1⟩, ⟨1, -5, 0, 1⟩, ⟨1, -4, 0, 1⟩,
       ⟨1, -3, 0, 1⟩, ⟨1, -2, 0, 1⟩,
       ⟨1, 0, 0, 1⟩, ⟨1, 1, 0, 1⟩, ⟨1, 2, 0, 1⟩, ⟨1, 3, 0, 1⟩,
       ⟨1, 4, 0, 1⟩, ⟨1, 5, 0, 1⟩, ⟨1, 6, 0, 1⟩] }

/-! ### ActivationClassifier (get_activation_details, lines 251-644) -/

/-- Parameters of get_activation_details. -/
structure ActParams where
  thresholdPct : ℚ
  useRounding : Bool
  roundValue : ℕ
  roundDirection : RoundDir
  wapFromChangeDate : Bool
  minDaysThreshold : ℤ
  deriving Repr, DecidableEq

/-- Per-product running state of the classifier (lines 281-284 and 319-329):
    last_known_is_our_price, is_first_period, blocked_same_price,
    last_applied_plan_price and prev_fact_price. -/
structure ActState where
  lastKnownIsOurPrice : Bool
  isFirstPeriod : Bool
  blockedSamePrice : Bool
  lastAppliedPlanPrice : Option ℚ
  prevFactPrice : Option ℚ
  deriving Repr, DecidableEq

/-- The plan-price data of one week (lines 331-376). -/
structure WeekPlanInfo where
  planCurrent : ℚ
  planCurrentRaw : ℚ
  planPrevious : Option ℚ
  planUnused : Option ℚ
  allPlanProcessed : List (Option ℚ)
  isChangeWeek : Bool
  changeDate : Option ℤ
  deriving Repr, DecidableEq

/-- The price-change orders of one product sorted by start date. -/
def productPricesSorted (s : CalcData) (pid : ℕ) : List PriceRow :=
  sortBy (fun a b => decide (a.newPriceStart ≤ b.newPriceStart))
    (s.testPrices.filter (fun r => decide (r.productId = pid)))

/-- Plan prices active in the week ending at w+6; none when no order is
    active yet (the continue at line 334).  With rounding on, a nonpositive
    raw current price (on which Python would fail the later comparison
    with None) is defaulted to 0, which likewise never matches. -/
def weekPlanInfo (p : ActParams) (prices : List PriceRow) (w : ℤ) : Option WeekPlanInfo :=
  let active := prices.filter (fun r => decide (r.newPriceStart ≤ w + 6))
  match active.getLast? with
  | none => none
  | some cur =>
    let roundP : ℚ → Option ℚ := roundPrice (min p.roundValue 99) p.roundDirection
    let raw := cur.newPrice
    let allRaw := active.map (fun r => r.newPrice)
    let prevRaw : Option ℚ :=
      if 2 ≤ active.length then (active.get? (active.length - 2)).map (fun r => r.newPrice)
      else none
    some
      { planCurrent := if p.useRounding then (roundP raw).getD 0 else raw
        planCurrentRaw := raw
        planPrevious := if p.useRounding then prevRaw.bind roundP else prevRaw
        planUnused := if p.useRounding then some raw else roundP raw
        allPlanProcessed := if p.useRounding then allRaw.map roundP else allRaw.map some
        isChangeWeek := prices.any (fun r => decide (weekMonday r.newPriceStart = w))
        changeDate :=
          ((prices.filter (fun r => decide (weekMonday r.newPriceStart = w))).head?).map
            (fun r => r.newPriceStart) }

/-- The fact price of one week: (WAP, has_sales, first_occurrence_date)
    (lines 378-462).  With smart WAP on a price-change week, the WAP is
    recomputed from the first transaction within tolerance of the plan when
    enough days remain, otherwise the whole-week WAP is used. -/
def weekFact (s : CalcData) (p : ActParams) (pid : ℕ) (w : ℤ) (pi : WeekPlanInfo) :
    ℚ × Bool × Option ℤ :=
  let whole : ℚ × Bool :=
    match weeklyRow? s pid w with
    | none => (0, false)
    | some rqc => if rqc.2.1 = 0 then (0, false) else (rqc.1 / rqc.2.1, true)
  match p.wapFromChangeDate && pi.isChangeWeek, pi.changeDate with
  | true, some cd =>
    let fromPlan := (salesSorted s).filter (fun t =>
      decide (t.productId = pid) && decide (weekMonday t.recordedOn = w) &&
        decide (cd ≤ t.recordedOn))
    let focc0 : Option ℤ :=
      if (!fromPlan.isEmpty) && decide (0 < pi.planCurrent) then
        (fromPlan.find? (fun t =>
          decide (qabs (t.price - pi.planCurrent) / pi.planCurrent * 100 ≤
            p.thresholdPct))).map (fun t => t.recordedOn)
      else none
    match focc0 with
    | none => (whole.1, whole.2, none)
    | some f =>
      if (w + 6 - f) + 1 < p.minDaysThreshold then (whole.1, whole.2, none)
      else
        let ws := (salesSorted s).filter (fun t =>
          decide (t.productId = pid) && decide (weekMonday t.recordedOn = w) &&
            decide (f ≤ t.recordedOn))
        if ws.isEmpty then (0, false, some f)
        else
          let qty := (ws.map (fun t => t.quantity)).sum
          if 0 < qty then (((ws.map (fun t => t.price * t.quantity)).sum) / qty, true, some f)
          else (0, false, some f)
  | _, _ => (whole.1, whole.2, none)

/-- The first-period coincidence check and the same-price lock
    (lines 501-516).  Input: is_first_period, blocked_same_price,
    has_sales, whether prev_fact_price exists and is positive, the
    fact-price change percentage, and the provisional is_our_price.
    Output: (blocked_same_price, is_our_price, reason-is-coincidence). -/
def resolveCoincidence (isFirstPeriod blocked0 hasSales prevPos : Bool)
    (changePct : Option ℚ) (isOur0 : Bool) : Bool × Bool × Bool :=
  let r1 : Bool × Bool × Bool :=
    if isFirstPeriod && hasSales && prevPos then
      changePct.elim (blocked0, isOur0, false)
        (fun c => if c ≤ 1 then (true, false, true) else (blocked0, isOur0, false))
    else (blocked0, isOur0, false)
  if r1.1 then
    (if hasSales then
      changePct.elim r1
        (fun c => if 1 < c then (false, r1.2.1, r1.2.2) else (r1.1, false, true))
    else r1)
  else r1

/-- Status string and can_use_in_analysis flag (lines 518-560). -/
def statusOf (hasSales isOurPrice reasonCoincidence lastKnown isMatchCurrent isMatchPrev
    wapActive foccFound : Bool) : String × Bool :=
  let wapMethod : String :=
    if wapActive then (if foccFound then ", план. даты" else ", полная нед.") else ""
  if hasSales then
    if isOurPrice then
      (if isMatchCurrent then "ОК (текущая" ++ wapMethod ++ ")"
       else if isMatchPrev then "ОК (предыдущая" ++ wapMethod ++ ")"
       else "ОК", true)
    else
      (if reasonCoincidence then "не та цена (совпадение)" else "не та цена (мимо плана)",
        false)
  else
    if lastKnown then ("наша цена не было продаж", true)
    else ("не та цена (нет продаж)", false)

/-- One row of the classifier output (lines 615-637). -/
structure ActivationRecord where
  productId : ℕ
  weekStart : ℤ
  planPriceCurrent : ℚ
  planPricePrevious : Option ℚ
  planPriceUnused : Option ℚ
  factPrice : ℚ
  factCost : ℚ
  factPricePrev : Option ℚ
  factPriceChangePct : Option ℚ
  isFactChange : Bool
  deviationFromCurrentPct : Option ℚ
  deviationUnusedPct : Option ℚ
  deviationFromPreviousPct : Option ℚ
  status : String
  canUseInAnalysis : Bool
  factPriceChanged : Bool
  factMatchesPlan : Bool
  isPriceChangeWeek : Bool
  isFirstPeriod : Bool
  deriving Repr, DecidableEq

/-- The loop body for one week once plan prices exist (lines 337-642):
    produces the record and the successor state. -/
def activationStepCore (s : CalcData) (p : ActParams) (pid : ℕ) (st : ActState)
    (w : ℤ) (pi : WeekPlanInfo) : Option ActivationRecord × ActState :=
  let fd := weekFact s p pid w pi
  let fact := fd.1
  let hasSales := fd.2.1
  let focc := fd.2.2
  let isMatchCurrent := hasSales && decide (0 < pi.planCurrent) &&
    decide (qabs (fact - pi.planCurrent) / pi.planCurrent * 100 ≤ p.thresholdPct)
  let prevMatch : Option ℚ → Bool := fun op =>
    match op with
    | some pp => decide (0 < pp) && decide (qabs (fact - pp) / pp * 100 ≤ p.thresholdPct)
    | none => false
  let isMatchAnyPrevious := (!st.isFirstPeriod) && hasSales &&
    decide (1 < pi.allPlanProcessed.length) && pi.allPlanProcessed.dropLast.any prevMatch
  let isMatchLastApplied := hasSales && prevMatch st.lastAppliedPlanPrice
  let prevPos : Bool :=
    match st.prevFactPrice with
    | some pf => decide (0 < pf)
    | none => false
  let changePct : Option ℚ :=
    if hasSales && prevPos then
      st.prevFactPrice.map (fun pf => qabs (fact - pf) / pf * 100)
    else none
  let isOur0 := isMatchCurrent || isMatchAnyPrevious || isMatchLastApplied
  let rc := resolveCoincidence st.isFirstPeriod st.blockedSamePrice hasSales prevPos
    changePct isOur0
  let sc := statusOf hasSales rc.2.1 rc.2.2 st.lastKnownIsOurPrice isMatchCurrent
    (isMatchAnyPrevious || isMatchLastApplied) (p.wapFromChangeDate && pi.isChangeWeek)
    focc.isSome
  (some
    { productId := pid
      weekStart := w
      planPriceCurrent := pi.planCurrent
      planPricePrevious := if st.isFirstPeriod then none else pi.planPrevious
      planPriceUnused := pi.planUnused
      factPrice := fact
      factCost :=
        match weeklyRow? s pid w with
        | some rqc => if 0 < rqc.2.1 then rqc.2.2 / rqc.2.1 else 0
        | none => 0
      factPricePrev := st.prevFactPrice
      factPriceChangePct := changePct
      isFactChange :=
        match changePct with
        | some c => decide (1 / 100 < c)
        | none => false
      deviationFromCurrentPct :=
        if hasSales && decide (0 < pi.planCurrent) then
          some (qabs (fact - pi.planCurrent) / pi.planCurrent * 100)
        else none
      deviationUnusedPct :=
        if hasSales then
          pi.planUnused.bind (fun u => if 0 < u then some (qabs (fact - u) / u * 100) else none)
        else none
      deviationFromPreviousPct :=
        if (!st.isFirstPeriod) && hasSales then
          pi.planPrevious.bind (fun v => if 0 < v then some (qabs (fact - v) / v * 100) else none)
        else none
      status := sc.1
      canUseInAnalysis := sc.2
      factPriceChanged :=
        match changePct with
        | some c => decide (1 < c)
        | none => false
      factMatchesPlan := isMatchCurrent
      isPriceChangeWeek := pi.isChangeWeek
      isFirstPeriod := st.isFirstPeriod },
    { lastKnownIsOurPrice := if hasSales then rc.2.1 else st.lastKnownIsOurPrice
      isFirstPeriod := if pi.isChangeWeek then false else st.isFirstPeriod
      blockedSamePrice := rc.1
      lastAppliedPlanPrice :=
        if hasSales && rc.2.1 && (!rc.1) then
          (if isMatchCurrent then some pi.planCurrent
           else if isMatchAnyPrevious then
             (match pi.allPlanProcessed.dropLast.find? prevMatch with
              | some (some pp) => some pp
              | _ => st.lastAppliedPlanPrice)
           else st.lastAppliedPlanPrice)
        else st.lastAppliedPlanPrice
      prevFactPrice := if hasSales then some fact else st.prevFactPrice })

/-- One week of the classifier walk; weeks without any active plan price
    produce no record and leave the state unchanged. -/
def activationStep (s : CalcData) (p : ActParams) (pid : ℕ) (prices : List PriceRow)
    (st : ActState) (w : ℤ) : Option ActivationRecord × ActState :=
  (weekPlanInfo p prices w).elim (none, st) (activationStepCore s p pid st w)

/-- The in-order, state-carrying walk over a product's test weeks. -/
def activationWalk (s : CalcData) (p : ActParams) (pid : ℕ) (prices : List PriceRow) :
    List ℤ → ActState → List ActivationRecord
  | [], _ => []
  | w :: ws, st =>
    (activationStep s p pid prices st w).1.toList ++
      activationWalk s p pid prices ws ((activationStep s p pid prices st w).2)

/-- Initial prev_fact_price: WAP of the latest pre-test week with sales
    (lines 319-329). -/
def initPrevFact (s : CalcData) (pid : ℕ) (tsw : ℤ) : Option ℚ :=
  ((uniqList ((s.sales.filter (fun t => decide (t.productId = pid))).map
      (fun t => weekMonday t.recordedOn))).filter (fun w0 =>
    decide (w0 < tsw) &&
      (match weeklyRow? s pid w0 with
       | some rqc => decide (0 < rqc.2.1)
       | none => false))).max?.map
    (fun w0 => weeklyRevenue s pid w0 / weeklyQuantity s pid w0)

/-- The classifier records of one product, from the week of its first
    price-change order through the last data week (lines 256-644 for one
    pid, also the specific_pid mode). -/
def activationForProduct (s : CalcData) (p : ActParams) (pid : ℕ) : List ActivationRecord :=
  match productPricesSorted s pid with
  | [] => []
  | p0 :: rest =>
    match lastDataWeek s with
    | none => []
    | some lw =>
      activationWalk s p pid (p0 :: rest) (weekRange (weekMonday p0.newPriceStart) lw)
        { lastKnownIsOurPrice := false
          isFirstPeriod := true
          blockedSamePrice := false
          lastAppliedPlanPrice := none
          prevFactPrice := initPrevFact s pid (weekMonday p0.newPriceStart) }

/-- get_activation_details over all test products. -/
def getActivationDetails (s : CalcData) (p : ActParams) : List ActivationRecord :=
  (testPidsOf s).flatMap (activationForProduct s p)

/-- get_activation_details as a method acting on the calculator object: it
    reads the datasets and returns them unchanged together with the rows
    (the Python method mutates no attribute of self). -/
def getActivationDetailsM (s : CalcData) (p : ActParams) :
    List ActivationRecord × CalcData :=
  (getActivationDetails s p, s)

/-! ### EffectEstimator (calculate, lines 1398-1735) -/

/-- Parameters of calculate. -/
structure CalcParams where
  useStockFilter : Bool
  stockThresholdPct : ℚ
  preTestWeeksCount : ℕ
  preTestStockThreshold : ℚ
  contiguousPreTest : Bool
  activationThreshold : Option ℚ
  activationUseRounding : Bool
  activationRoundValue : ℕ
  activationRoundDirection : RoundDir
  activationWapFromChangeDate : Bool
  activationMinDaysThreshold : ℤ
  testUseWeekValues : Bool
  deriving Repr, DecidableEq

/-- The classifier parameters assembled by calculate (lines 1412-1419). -/
def actParamsOf (p : CalcParams) (theta : ℚ) : ActParams :=
  { thresholdPct := theta
    useRounding := p.activationUseRounding
    roundValue := p.activationRoundValue
    roundDirection := p.activationRoundDirection
    wapFromChangeDate := p.activationWapFromChangeDate
    minDaysThreshold := p.activationMinDaysThreshold }

/-- The activation-status map entry for (pid, w) (lines 1420-1424): the
    last classifier row of that key, as the dict comprehension keeps the
    last duplicate; none when the classifier is disabled. -/
def activationRecordLookup (s : CalcData) (p : CalcParams) (pid : ℕ) (w : ℤ) :
    Option ActivationRecord :=
  match p.activationThreshold with
  | none => none
  | some theta =>
    ((getActivationDetails s (actParamsOf p theta)).filter
      (fun r => decide (r.productId = pid) && decide (r.weekStart = w))).getLast?

/-- activation_status_map.get((pid, w), "") at line 1509. -/
def activationStatusLookup (s : CalcData) (p : CalcParams) (pid : ℕ) (w : ℤ) : String :=
  ((activationRecordLookup s p pid w).map (fun r => r.status)).getD ("")

/-- The test-prices rows of one product (line 1427). -/
def productInfo (s : CalcData) (pid : ℕ) : List PriceRow :=
  s.testPrices.filter (fun r => decide (r.productId = pid))

/-- start_date: the earliest price-change date of the product (line 1430). -/
def startDateOf (s : CalcData) (pid : ℕ) : ℤ :=
  match (productInfo s pid).map (fun r => r.newPriceStart) with
  | [] => 0
  | d :: ds => ds.foldl min d

/-- test_period_start_week (lines 1435-1440): the change week itself when
    the change lands on a Monday, otherwise the next week. -/
def testPeriodStartWeekOf (s : CalcData) (pid : ℕ) : ℤ :=
  if Int.emod (startDateOf s pid) 7 = 0 then weekMonday (startDateOf s pid)
  else weekMonday (startDateOf s pid) + 7

/-- pre_test_search_end: one week before the change week. -/
def preTestSearchEndOf (s : CalcData) (pid : ℕ) : ℤ :=
  weekMonday (startDateOf s pid) - 7

/-- The dynamic pre-test window of the product (lines 1443-1446). -/
def preTestListOf (s : CalcData) (p : CalcParams) (pid : ℕ) : Option (List ℤ) :=
  findValidPreTestPeriod s pid (preTestSearchEndOf s pid) p.preTestWeeksCount
    p.preTestStockThreshold p.contiguousPreTest

def preTestListD (s : CalcData) (p : CalcParams) (pid : ℕ) : List ℤ :=
  (preTestListOf s p pid).getD []

/-- baseline_stock: mean stock over the pre-test weeks (lines 1456-1457). -/
def baselineStockOf (s : CalcData) (p : CalcParams) (pid : ℕ) : ℚ :=
  if (preTestListD s p pid).isEmpty then 0
  else (((preTestListD s p pid).map (fun w => stockLookupD s pid w)).sum) /
    ((preTestListD s p pid).length : ℚ)

/-- The pre-test weeks that are present in weekly sales (the sales_lookup
    membership test of lines 1463-1471). -/
def validPreWeeksOf (s : CalcData) (p : CalcParams) (pid : ℕ) : List ℤ :=
  (preTestListD s p pid).filter (fun w => hasWeeklyRow s pid w)

/-- R_tb: mean pre-test weekly revenue (lines 1460-1476). -/
def rtbOf (s : CalcData) (p : CalcParams) (pid : ℕ) : ℚ :=
  (((validPreWeeksOf s p pid).map (fun w => weeklyRevenue s pid w)).sum) /
    ((validPreWeeksOf s p pid).length : ℚ)

/-- P_tb: mean pre-test weekly profit. -/
def ptbOf (s : CalcData) (p : CalcParams) (pid : ℕ) : ℚ :=
  (((validPreWeeksOf s p pid).map
      (fun w => weeklyRevenue s pid w - weeklyCostVolume s pid w)).sum) /
    ((validPreWeeksOf s p pid).length : ℚ)

/-- R_cb: mean control revenue over the same weeks (lines 1479-1490). -/
def rcbOf (s : CalcData) (p : CalcParams) (pid : ℕ) : ℚ :=
  (((validPreWeeksOf s p pid).map (fun w => controlRevenueD s w)).sum) /
    ((validPreWeeksOf s p pid).length : ℚ)

/-- P_cb: mean control profit over the same weeks. -/
def pcbOf (s : CalcData) (p : CalcParams) (pid : ℕ) : ℚ :=
  (((validPreWeeksOf s p pid).map
      (fun w => controlRevenueD s w - controlCostVolumeD s w)).sum) /
    ((validPreWeeksOf s p pid).length : ℚ)

/-- available_weeks: control weeks from the test start on (lines 1498-1500). -/
def availableWeeksOf (s : CalcData) (_p : CalcParams) (pid : ℕ) : List ℤ :=
  (controlWeeks s).filter (fun w => decide (testPeriodStartWeekOf s pid ≤ w))

/-- The stock of a test week (line 1504). -/
def weekStockOf (s : CalcData) (pid : ℕ) (w : ℤ) : ℚ := stockLookupD s pid w

/-- The optional stock filter (lines 1506-1508). -/
def weekExcludedOf (s : CalcData) (p : CalcParams) (pid : ℕ) (w : ℤ) : Bool :=
  p.useStockFilter && decide (weekStockOf s pid w <
    baselineStockOf s p pid * (1 - p.stockThresholdPct / 100))

/-- is_not_our_price (lines 1509-1510): the looked-up activation status
    starts with the mismatched-price marker. -/
def weekNotOurOf (s : CalcData) (p : CalcParams) (pid : ℕ) (w : ℤ) : Bool :=
  strStartsWith (activationStatusLookup s p pid w) ("не та цена")

/-- week_status_map.get(w, defaults): computed entries for available weeks,
    false defaults otherwise (lines 1502-1516, 1551-1554). -/
def statusEntryOf (s : CalcData) (p : CalcParams) (pid : ℕ) (w : ℤ) : Bool × Bool :=
  if w ∈ availableWeeksOf s p pid then
    (weekExcludedOf s p pid w, weekNotOurOf s p pid w)
  else (false, false)

/-- valid_test_weeks: the non-excluded weeks from the test start through
    the current week (lines 1547-1555). -/
def validTestWeeksOf (s : CalcData) (p : CalcParams) (pid : ℕ) (week : ℤ) : List ℤ :=
  (weekRange (testPeriodStartWeekOf s pid) week).filter
    (fun wh => !(statusEntryOf s p pid wh).1 && !(statusEntryOf s p pid wh).2)

/-- R_tt (lines 1557-1600): the week value in week mode, the mean over the
    valid test weeks otherwise, and 0 when no valid week exists. -/
def rttOf (s : CalcData) (p : CalcParams) (pid : ℕ) (week : ℤ) : ℚ :=
  if (validTestWeeksOf s p pid week).isEmpty then 0
  else if p.testUseWeekValues then weeklyRevenueD s pid week
  else (((validTestWeeksOf s p pid week).map (fun wh => weeklyRevenueD s pid wh)).sum) /
    ((validTestWeeksOf s p pid week).length : ℚ)

def rctOf (s : CalcData) (p : CalcParams) (pid : ℕ) (week : ℤ) : ℚ :=
  if (validTestWeeksOf s p pid week).isEmpty then 0
  else if p.testUseWeekValues then controlRevenueD s week
  else (((validTestWeeksOf s p pid week).map (fun wh => controlRevenueD s wh)).sum) /
    ((validTestWeeksOf s p pid week).length : ℚ)

def pttOf (s : CalcData) (p : CalcParams) (pid : ℕ) (week : ℤ) : ℚ :=
  if (validTestWeeksOf s p pid week).isEmpty then 0
  else if p.testUseWeekValues then
    weeklyRevenueD s pid week - weeklyCostVolumeD s pid week
  else (((validTestWeeksOf s p pid week).map
      (fun wh => weeklyRevenueD s pid wh - weeklyCostVolumeD s pid wh)).sum) /
    ((validTestWeeksOf s p pid week).length : ℚ)

def pctOf (s : CalcData) (p : CalcParams) (pid : ℕ) (week : ℤ) : ℚ :=
  if (validTestWeeksOf s p pid week).isEmpty then 0
  else if p.testUseWeekValues then controlRevenueD s week - controlCostVolumeD s week
  else (((validTestWeeksOf s p pid week).map
      (fun wh => controlRevenueD s wh - controlCostVolumeD s wh)).sum) /
    ((validTestWeeksOf s p pid week).length : ℚ)

/-- effect_revenue (lines 1619-1632) with the zero-actual guard. -/
def effectRevenueOf (s : CalcData) (p : CalcParams) (pid : ℕ) (week : ℤ) : ℚ :=
  if rttOf s p pid week = 0 then
    (-1) - (if rctOf s p pid week = 0 ∧ rcbOf s p pid = 0 then 0
            else if rcbOf s p pid = 0 then 0
            else rctOf s p pid week / rcbOf s p pid - 1)
  else (rttOf s p pid week / rtbOf s p pid - 1) - (rctOf s p pid week / rcbOf s p pid - 1)

/-- effect_profit (lines 1634-1654) with the zero-baseline guards. -/
def effectProfitOf (s : CalcData) (p : CalcParams) (pid : ℕ) (week : ℤ) : ℚ :=
  if ptbOf s p pid = 0 then 0
  else (pttOf s p pid week / ptbOf s p pid - 1) -
    (if pcbOf s p pid = 0 then 0 else pctOf s p pid week / pcbOf s p pid - 1)

/-- One row of the effect table (lines 1523-1544 and 1674-1698). -/
structure EffectRecord where
  productId : ℕ
  weekStart : ℤ
  rtt : ℚ
  rtb : ℚ
  rct : ℚ
  rcb : ℚ
  effectRevenuePct : ℚ
  effectProfitPct : ℚ
  factRevenue : ℚ
  productProfit : ℚ
  controlFactRevenue : ℚ
  controlProfit : ℚ
  absEffectRevenue : ℚ
  absEffectProfit : ℚ
  testStartDate : ℤ
  preTestWeeks : List ℤ
  avgStock : ℚ
  baselineStock : ℚ
  isExcluded : Bool
  deriving Repr, DecidableEq

/-- The record emitted for one available week: the zeroed excluded row when
    the stock filter or the activation status excludes the week, the
    computed row otherwise. -/
def calcWeekRecord (s : CalcData) (p : CalcParams) (pid : ℕ) (week : ℤ) : EffectRecord :=
  if weekExcludedOf s p pid week || weekNotOurOf s p pid week then
    { productId := pid
      weekStart := week
      rtt := 0
      rtb := rtbOf s p pid
      rct := 0
      rcb := rcbOf s p pid
      effectRevenuePct := 0
      effectProfitPct := 0
      factRevenue := 0
      productProfit := 0
      controlFactRevenue := 0
      controlProfit := 0
      absEffectRevenue := 0
      absEffectProfit := 0
      testStartDate := startDateOf s pid
      preTestWeeks := preTestListD s p pid
      avgStock := weekStockOf s pid week
      baselineStock := baselineStockOf s p pid
      isExcluded := true }
  else
    { productId := pid
      weekStart := week
      rtt := rttOf s p pid week
      rtb := rtbOf s p pid
      rct := rctOf s p pid week
      rcb := rcbOf s p pid
      effectRevenuePct := effectRevenueOf s p pid week
      effectProfitPct := effectProfitOf s p pid week
      factRevenue := weeklyRevenueD s pid week
      productProfit := weeklyRevenueD s pid week - weeklyCostVolumeD s pid week
      controlFactRevenue := controlRevenueD s week
      controlProfit := controlRevenueD s week - controlCostVolumeD s week
      absEffectRevenue := effectRevenueOf s p pid week * weeklyRevenueD s pid week
      absEffectProfit := effectProfitOf s p pid week *
        (weeklyRevenueD s pid week - weeklyCostVolumeD s pid week)
      testStartDate := startDateOf s pid
      preTestWeeks := preTestListD s p pid
      avgStock := weekStockOf s pid week
      baselineStock := baselineStockOf s p pid
      isExcluded := false }

/-- The effect rows of one product, with the four skip guards of
    lines 1428-1429, 1448-1449, 1473-1474 and 1493-1495. -/
def calcProductRows (s : CalcData) (p : CalcParams) (pid : ℕ) : List EffectRecord :=
  if (productInfo s pid).isEmpty then []
  else
    match preTestListOf s p pid with
    | none => []
    | some _ =>
      if (validPreWeeksOf s p pid).isEmpty then []
      else if rtbOf s p pid = 0 ∨ rcbOf s p pid = 0 then []
      else (availableWeeksOf s p pid).map (calcWeekRecord s p pid)

/-- calculate: the full effect table over all test products. -/
def calculateRows (s : CalcData) (p : CalcParams) : List EffectRecord :=
  (testPidsOf s).flatMap (calcProductRows s p)

/-- Total_Effect per product (lines 1700-1733): sum of valid weekly
    absolute effects in week mode, else the last valid week effect
    percentage times the realized totals. -/
def totalEffectsOf (s : CalcData) (p : CalcParams) (pid : ℕ) : ℚ × ℚ :=
  let valid := (calcProductRows s p pid).filter (fun r => !r.isExcluded)
  if valid.isEmpty then (0, 0)
  else if p.testUseWeekValues then
    ((valid.map (fun r => r.absEffectRevenue)).sum,
      (valid.map (fun r => r.absEffectProfit)).sum)
  else
    (sortBy (fun a b => decide (a.weekStart ≤ b.weekStart)) valid).getLast?.elim (0, 0)
      (fun last =>
        (last.effectRevenuePct * (valid.map (fun r => r.factRevenue)).sum,
          last.effectProfitPct * (valid.map (fun r => r.productProfit)).sum))

/-- Scenario B dataset: product 1 gets plan price 100.00 from day 0 and
    sells at weighted average 100.85 = 2017/20 on the Sunday of the change
    week (day 6), so the week is complete and survives truncation. -/
def cdataC1 : CalcData :=
  { testPrices := [⟨1, 0, 100⟩]
    sales := [⟨1, 6, 2017/20, 1⟩]
    costs := [] }

/-- Scenario B classifier parameters: threshold 1 percent, rounding on with
    round_value 90 and direction up, whole-week WAP. -/
def pC1 : ActParams :=
  { thresholdPct := 1
    useRounding := true
    roundValue := 90
    roundDirection := RoundDir.up
    wapFromChangeDate := false
    minDaysThreshold := 0 }

/-- Scenario B walk state at the change week: first period, nothing known
    yet and no pre-test fact price on record. -/
def stC1 : ActState :=
  { lastKnownIsOurPrice := false
    isFirstPeriod := true
    blockedSamePrice := false
    lastAppliedPlanPrice := none
    prevFactPrice := none }

/-- The plan info of the Scenario B change week: the rounded current plan
    is 100 itself, because 100.00 is whole and round_price returns whole
    prices unchanged. -/
def piC1 : WeekPlanInfo :=
  { planCurrent := 100
    planCurrentRaw := 100
    planPrevious := none
    planUnused := some 100
    allPlanProcessed := [some 100]
    isChangeWeek := true
    changeDate := some 0 }

/-- Scenario C dataset: product 1 gets plan price 100 from day 0 and the
    first test week sells at WAP exactly 100, equal to the recorded
    pre-test fact price. -/
def cdataC5 : CalcData :=
  { testPrices := [⟨1, 0, 100⟩]
    sales := [⟨1, 6, 100, 1⟩]
    costs := [] }

/-- Scenario C classifier parameters: threshold 1 percent, no rounding,
    whole-week WAP. -/
def pC5 : ActParams :=
  { thresholdPct := 1
    useRounding := false
    roundValue := 0
    roundDirection := RoundDir.nearest
    wapFromChangeDate := false
    minDaysThreshold := 0 }

/-- Scenario C walk state: first test week with a pre-test fact price of
    100 on record. -/
def stC5 : ActState :=
  { lastKnownIsOurPrice := false
    isFirstPeriod := true
    blockedSamePrice := false
    lastAppliedPlanPrice := none
    prevFactPrice := some 100 }

/-- The plan info of the Scenario C change week (no rounding). -/
def piC5 : WeekPlanInfo :=
  { planCurrent := 100
    planCurrentRaw := 100
    planPrevious := none
    planUnused := some 100
    allPlanProcessed := [some 100]
    isChangeWeek := true
    changeDate := some 0 }

/-- Scenario D dataset: test product 1 changes price on day 14 (a Monday)
    and sells 1000 in the pre-test week 7 but nothing afterwards; control
    product 2 sells 500 in week 7 and 600 in test week 14, ending on the
    Sunday day 20 so no week is truncated. -/
def cdataC6 : CalcData :=
  { testPrices := [⟨1, 14, 50⟩]
    sales := [⟨1, 7, 1000, 1⟩, ⟨2, 8, 500, 1⟩, ⟨2, 20, 600, 1⟩]
    costs := [] }

/-- Scenario D estimator parameters: week-values mode, one contiguous
    pre-test week with zero stock threshold, stock filter and activation
    classifier disabled. -/
def pC6 : CalcParams :=
  { useStockFilter := false
    stockThresholdPct := 0
    preTestWeeksCount := 1
    preTestStockThreshold := 0
    contiguousPreTest := true
    activationThreshold := none
    activationUseRounding := false
    activationRoundValue := 0
    activationRoundDirection := RoundDir.nearest
    activationWapFromChangeDate := false
    activationMinDaysThreshold := 0
    testUseWeekValues := true }

/-- The Scenario D effect row of test week 14. -/
def recC6 : EffectRecord := calcWeekRecord cdataC6 pC6 1 14

theorem qabs_eq_abs (x : ℚ) : qabs x = |x| := by
  unfold qabs
  split
  · exact (abs_of_neg (by assumption)).symm
  · exact (abs_of_nonneg (by linarith)).symm

theorem qabs_nonneg (x : ℚ) : 0 ≤ qabs x := by
  rw [qabs_eq_abs]; exact abs_nonneg x

theorem mem_insortBy (le : α → α → Bool) (a x : α) (l : List α) :
    x ∈ insortBy le a l ↔ x = a ∨ x ∈ l := by
  induction l with
  | nil => simp [insortBy]
  | cons b t ih =>
    by_cases h : le a b = true
    · simp [insortBy, h]
    · simp only [insortBy, if_neg h, List.mem_cons, ih]
      tauto

theorem mem_sortBy (le : α → α → Bool) (x : α) (l : List α) :
    x ∈ sortBy le l ↔ x ∈ l := by
  induction l with
  | nil => simp [sortBy]
  | cons b t ih =>
    simp only [sortBy, List.foldr] at ih ⊢
    rw [mem_insortBy, ih, List.mem_cons]

theorem length_insortBy (le : α → α → Bool) (a : α) (l : List α) :
    (insortBy le a l).length = l.length + 1 := by
  induction l with
  | nil => rfl
  | cons b t ih =>
    by_cases h : le a b = true
    · simp [insortBy, h]
    · simp [insortBy, h, ih]

theorem length_sortBy (le : α → α → Bool) (l : List α) :
    (sortBy le l).length = l.length := by
  induction l with
  | nil => rfl
  | cons b t ih =>
    simp only [sortBy, List.foldr] at ih ⊢
    rw [length_insortBy, ih, List.length_cons]

theorem mem_uniqAux [DecidableEq α] (x : α) (l : List α) :
    ∀ seen : List α, x ∈ uniqAux seen l ↔ x ∈ l ∧ x ∉ seen := by
  induction l with
  | nil => simp [uniqAux]
  | cons a t ih =>
    intro seen
    by_cases h : a ∈ seen
    · rw [uniqAux, if_pos h, ih]
      constructor
      · rintro ⟨hx, hns⟩
        exact ⟨List.mem_cons_of_mem _ hx, hns⟩
      · rintro ⟨hx, hns⟩
        rcases List.mem_cons.mp hx with rfl | hx
        · exact absurd h hns
        · exact ⟨hx, hns⟩
    · rw [uniqAux, if_neg h, List.mem_cons, ih]
      constructor
      · rintro (rfl | ⟨hx, hns⟩)
        · exact ⟨List.mem_cons_self _ _, h⟩
        · exact ⟨List.mem_cons_of_mem _ hx, fun hc => hns (List.mem_cons_of_mem _ hc)⟩
      · rintro ⟨hx, hns⟩
        rcases List.mem_cons.mp hx with rfl | hx
        · exact Or.inl rfl
        · by_cases hxa : x = a
          · exact Or.inl hxa
          · exact Or.inr ⟨hx, by
              intro hc
              rcases List.mem_cons.mp hc with h1 | h1
              · exact hxa h1
              · exact hns h1⟩

theorem mem_uniqList [DecidableEq α] (x : α) (l : List α) :
    x ∈ uniqList l ↔ x ∈ l := by
  rw [uniqList, mem_uniqAux]
  simp

theorem nodup_uniqAux [DecidableEq α] (l : List α) :
    ∀ seen : List α, (uniqAux seen l).Nodup := by
  induction l with
  | nil => intro seen; simp [uniqAux]
  | cons a t ih =>
    intro seen
    by_cases h : a ∈ seen
    · rw [uniqAux, if_pos h]; exact ih seen
    · rw [uniqAux, if_neg h]
      refine List.Nodup.cons ?_ (ih (a :: seen))
      intro hc
      exact ((mem_uniqAux a t (a :: seen)).mp hc).2 (List.mem_cons_self _ _)

theorem nodup_uniqList [DecidableEq α] (l : List α) : (uniqList l).Nodup :=
  nodup_uniqAux l []

theorem self_mem_weekRange_left (a b : ℤ) (h : a ≤ b) : a ∈ weekRange a b := by
  rw [weekRange, if_pos h]
  have h0 : (0 : ℕ) ∈ List.range ((b - a).toNat / 7 + 1) := List.mem_range.mpr (by omega)
  have hmem := List.mem_map_of_mem (fun k : ℕ => a + 7 * (k : ℤ)) h0
  simp only [Nat.cast_zero, mul_zero, add_zero] at hmem
  exact hmem

theorem end_mem_weekRange (a b : ℤ) (h : a ≤ b) (hdvd : (7 : ℤ) ∣ b - a) :
    b ∈ weekRange a b := by
  rw [weekRange, if_pos h]
  rcases hdvd with ⟨k, hk⟩
  have hk0 : 0 ≤ k := by omega
  have h0 : k.toNat ∈ List.range ((b - a).toNat / 7 + 1) := List.mem_range.mpr (by omega)
  have heq : a + 7 * ((k.toNat : ℤ)) = b := by
    rw [Int.toNat_of_nonneg hk0]; omega
  have hmem := List.mem_map_of_mem (fun k : ℕ => a + 7 * (k : ℤ)) h0
  simp only [] at hmem
  rwa [heq] at hmem

@[simp] theorem roundDir_up_eq_nearest : (RoundDir.up = RoundDir.nearest) ↔ False := by
  decide

@[simp] theorem roundDir_up_eq_down : (RoundDir.up = RoundDir.down) ↔ False := by
  decide

@[simp] theorem roundDir_down_eq_nearest : (RoundDir.down = RoundDir.nearest) ↔ False := by
  decide

theorem roundPrice_int (rv : ℕ) (dir : RoundDir) (m : ℤ) (hm : 1 ≤ m) :
    roundPrice rv dir ((m : ℚ)) = some ((m : ℚ)) := by
  have hpos : ¬ ((m : ℚ) ≤ 0) := by
    push_neg
    exact_mod_cast Int.lt_iff_add_one_le.mpr (by omega)
  rw [roundPrice, if_neg hpos]
  simp only [Int.floor_intCast, sub_self]
  rw [if_pos (by norm_num)]

theorem roundPrice_intAddTarget (rv : ℕ) (dir : RoundDir) (m : ℤ)
    (hm : 0 ≤ m) (h1 : 1 ≤ rv) (h99 : rv ≤ 99) :
    roundPrice rv dir ((m : ℚ) + (rv : ℚ) / 100) = some ((m : ℚ) + (rv : ℚ) / 100) := by
  have ht1 : 1 / 100 ≤ (rv : ℚ) / 100 := by
    have : (1 : ℚ) ≤ (rv : ℚ) := by exact_mod_cast h1
    linarith
  have ht99 : (rv : ℚ) / 100 ≤ 99 / 100 := by
    have : (rv : ℚ) ≤ 99 := by exact_mod_cast h99
    linarith
  have hpos : ¬ ((m : ℚ) + (rv : ℚ) / 100 ≤ 0) := by
    push_neg
    have hm0 : (0 : ℚ) ≤ (m : ℚ) := by exact_mod_cast hm
    linarith
  have hfloor : ⌊(m : ℚ) + (rv : ℚ) / 100⌋ = m := by
    rw [add_comm, Int.floor_add_int]
    have : ⌊(rv : ℚ) / 100⌋ = 0 := Int.floor_eq_zero_iff.mpr ⟨by linarith, by linarith⟩
    omega
  rw [roundPrice, if_neg hpos]
  rw [hfloor]
  have hfrac : (m : ℚ) + (rv : ℚ) / 100 - (m : ℚ) = (rv : ℚ) / 100 := by ring
  rw [hfrac]
  rw [if_neg (by push_neg; linarith)]
  rw [if_pos (by rw [sub_self]; simp [qabs])]

theorem roundPrice_lands (rv : ℕ) (dir : RoundDir) (m : ℤ)
    (hm : 0 ≤ m) (hm1 : rv = 0 → 1 ≤ m) (h99 : rv ≤ 99) :
    roundPrice rv dir ((m : ℚ) + (rv : ℚ) / 100) = some ((m : ℚ) + (rv : ℚ) / 100) := by
  by_cases hrv : rv = 0
  · subst hrv
    rw [show ((m : ℚ) + ((0 : ℕ) : ℚ) / 100) = (m : ℚ) by push_cast; ring]
    exact roundPrice_int 0 dir m (hm1 rfl)
  · exact roundPrice_intAddTarget rv dir m hm (Nat.one_le_iff_ne_zero.mpr hrv) h99

/-- C8 (amended): plan-price rounding is a fixed point on every price
    x ≥ 1 with round_value in [0,99] and any direction; re-rounding the
    rounded result returns it unchanged.  (For 0 < x < 1 the down direction
    can produce a negative price whose re-rounding yields none, see the
    counterexample.) -/
theorem c8_theorem (rv : ℕ) (dir : RoundDir) (x r : ℚ)
    (h99 : rv ≤ 99) (hx : 1 ≤ x) (h : roundPrice rv dir x = some r) :
    roundPrice rv dir r = some r := by
  have hx0 : ¬ (x ≤ 0) := by push_neg; linarith
  have hw1 : 1 ≤ ⌊x⌋ := by
    rw [Int.le_floor]; exact_mod_cast hx
  have hf0 : (0 : ℚ) ≤ x - (⌊x⌋ : ℚ) := by
    have := Int.floor_le x; linarith
  rw [roundPrice, if_neg hx0] at h
  by_cases hsmall : x - (⌊x⌋ : ℚ) < 1 / 1000000
  · rw [if_pos hsmall, Option.some_inj] at h
    rw [← h]
    exact roundPrice_int rv dir ⌊x⌋ hw1
  · rw [if_neg hsmall] at h
    by_cases hnear : qabs (x - (⌊x⌋ : ℚ) - (rv : ℚ) / 100) < 1 / 100
    · rw [if_pos hnear, Option.some_inj] at h
      rw [← h, roundPrice, if_neg hx0, if_neg hsmall, if_pos hnear]
    · rw [if_neg hnear] at h
      have hcast1 : ((⌊x⌋ : ℚ) + 1) + (rv : ℚ) / 100 = ((⌊x⌋ + 1 : ℤ) : ℚ) + (rv : ℚ) / 100 := by
        push_cast; ring
      by_cases hdn : dir = RoundDir.nearest
      · rw [if_pos hdn] at h
        by_cases hc : qabs (x - ((⌊x⌋ : ℚ) + (rv : ℚ) / 100)) ≤
            qabs (x - (((⌊x⌋ : ℚ) + 1) + (rv : ℚ) / 100))
        · rw [if_pos hc, Option.some_inj] at h
          rw [← h]
          exact roundPrice_lands rv dir ⌊x⌋ (by omega) (fun _ => hw1) h99
        · rw [if_neg hc, Option.some_inj] at h
          rw [← h, hcast1]
          exact roundPrice_lands rv dir (⌊x⌋ + 1) (by omega) (fun _ => by omega) h99
      · rw [if_neg hdn] at h
        by_cases hdd : dir = RoundDir.down
        · rw [if_pos hdd] at h
          by_cases hc : (rv : ℚ) / 100 ≤ x - (⌊x⌋ : ℚ)
          · rw [if_pos hc, Option.some_inj] at h
            rw [← h]
            exact roundPrice_lands rv dir ⌊x⌋ (by omega) (fun _ => hw1) h99
          · rw [if_neg hc, Option.some_inj] at h
            rw [← h]
            rw [show ((⌊x⌋ : ℚ) - 1) + (rv : ℚ) / 100 =
              ((⌊x⌋ - 1 : ℤ) : ℚ) + (rv : ℚ) / 100 by push_cast; ring]
            refine roundPrice_lands rv dir (⌊x⌋ - 1) ?_ (fun hrv => ?_) h99
            · -- a down fall to whole - 1 requires fractional part below the
              -- target, hence a positive target, hence floor x ≥ 1 suffices
              omega
            · exfalso
              rw [hrv] at hc
              push_neg at hc
              simp only [Nat.cast_zero, zero_div] at hc
              linarith
        · rw [if_neg hdd] at h
          by_cases hc : x - (⌊x⌋ : ℚ) ≤ (rv : ℚ) / 100
          · rw [if_pos hc, Option.some_inj] at h
            rw [← h]
            exact roundPrice_lands rv dir ⌊x⌋ (by omega) (fun _ => hw1) h99
          · rw [if_neg hc, Option.some_inj] at h
            rw [← h, hcast1]
            exact roundPrice_lands rv dir (⌊x⌋ + 1) (by omega) (fun _ => by omega) h99

/-- C8 witness: a concrete instance of the amended round-trip property,
    obtained by applying the theorem at x = 3/2 with round_value 90, up. -/
theorem c8_witness :
    roundPrice 90 RoundDir.up (3 / 2) = some (19 / 10) ∧
      roundPrice 90 RoundDir.up (19 / 10) = some (19 / 10) := by
  have h : roundPrice 90 RoundDir.up (3 / 2) = some (19 / 10) := by
    norm_num [roundPrice, qabs]
  exact ⟨h, c8_theorem 90 RoundDir.up (3 / 2) (19 / 10) (by norm_num) (by norm_num) h⟩

/-- C8 counterexample: the claim as stated quantifies over every price
    x > 0, but at x = 1/2 with round_value 90 and direction down the first
    rounding returns -1/10 while re-rounding -1/10 returns none, so
    round(round(x)) differs from round(x). -/
theorem c8_counterexample :
    0 < (1 / 2 : ℚ) ∧
      roundPrice 90 RoundDir.down (1 / 2) = some (-1 / 10) ∧
      roundPrice 90 RoundDir.down (-1 / 10) = none ∧
      (roundPrice 90 RoundDir.down (1 / 2)).bind (roundPrice 90 RoundDir.down) ≠
        roundPrice 90 RoundDir.down (1 / 2) := by
  have h1 : roundPrice 90 RoundDir.down (1 / 2) = some (-1 / 10) := by
    norm_num [roundPrice, qabs]
  have h2 : roundPrice 90 RoundDir.down (-1 / 10) = none := by
    norm_num [roundPrice]
  refine ⟨by norm_num, h1, h2, ?_⟩
  rw [h1]
  simp [h2]

/-- C1 counterexample: with rounding enabled, round_value 90 and direction
    up, a raw plan price of exactly 100.00 is returned unchanged as 100.00
    (its fractional part is below the 1e-6 guard), not rounded to 100.90 as
    the claim states. -/
theorem c1_counterexample :
    roundPrice 90 RoundDir.up 100 = some 100 ∧ (100 : ℚ) ≠ 1009 / 10 := by
  constructor
  · norm_num [roundPrice]
  · norm_num

theorem bwFold_none (pid : ℕ) (d : ℤ) :
    ∀ (l : List CostRecord) (acc : Option CostRecord),
      l.foldl (bwStep pid d) acc = none →
      acc = none ∧ ∀ c ∈ l, ¬ (c.productId = pid ∧ c.date ≤ d) := by
  intro l
  induction l with
  | nil => intro acc h; exact ⟨h, by simp⟩
  | cons c t ih =>
    intro acc h
    rw [List.foldl_cons] at h
    obtain ⟨hstep, hrest⟩ := ih (bwStep pid d acc c) h
    by_cases hc : c.productId = pid ∧ c.date ≤ d
    · exfalso
      cases acc with
      | none =>
        rw [bwStep, if_pos hc] at hstep
        exact Option.noConfusion hstep
      | some b =>
        rw [bwStep, if_pos hc] at hstep
        by_cases hd : b.date ≤ c.date
        · rw [if_pos hd] at hstep; exact Option.noConfusion hstep
        · rw [if_neg hd] at hstep; exact Option.noConfusion hstep
    · cases acc with
      | none =>
        refine ⟨rfl, ?_⟩
        intro x hx
        rcases List.mem_cons.mp hx with rfl | hx
        · exact hc
        · exact hrest x hx
      | some b =>
        rw [bwStep, if_neg hc] at hstep
        exact Option.noConfusion hstep

theorem bwFold_some (pid : ℕ) (d : ℤ) :
    ∀ (l : List CostRecord) (acc : Option CostRecord) (b : CostRecord),
      l.foldl (bwStep pid d) acc = some b →
      (acc = some b ∨ (b ∈ l ∧ b.productId = pid ∧ b.date ≤ d)) ∧
        (∀ c ∈ l, c.productId = pid → c.date ≤ d → c.date ≤ b.date) ∧
        (∀ a, acc = some a → a.date ≤ b.date) := by
  intro l
  induction l with
  | nil =>
    intro acc b h
    simp only [List.foldl_nil] at h
    subst h
    refine ⟨Or.inl rfl, by simp, ?_⟩
    intro a ha
    injection ha with ha
    rw [ha]
  | cons c t ih =>
    intro acc b h
    rw [List.foldl_cons] at h
    obtain ⟨hfirst, hmax, hacc⟩ := ih (bwStep pid d acc c) b h
    by_cases hc : c.productId = pid ∧ c.date ≤ d
    · have hstepc : ∃ a, bwStep pid d acc c = some a ∧ c.date ≤ a.date ∧
          (∀ a0, acc = some a0 → a0.date ≤ a.date) ∧
          ((a ∈ c :: t ∧ a.productId = pid ∧ a.date ≤ d) ∨ acc = some a) := by
        cases acc with
        | none =>
          refine ⟨c, ?_, le_refl _, ?_, Or.inl ⟨List.mem_cons_self _ _, hc⟩⟩
          · rw [bwStep, if_pos hc]
          · intro a0 ha0; exact Option.noConfusion ha0
        | some b0 =>
          by_cases hd : b0.date ≤ c.date
          · refine ⟨c, ?_, le_refl _, ?_, Or.inl ⟨List.mem_cons_self _ _, hc⟩⟩
            · rw [bwStep, if_pos hc, if_pos hd]
            · intro a0 ha0
              injection ha0 with h0
              rw [← h0]; exact hd
          · refine ⟨b0, ?_, by omega, ?_, Or.inr rfl⟩
            · rw [bwStep, if_pos hc, if_neg hd]
            · intro a0 ha0
              injection ha0 with h0
              rw [← h0]
      obtain ⟨a, hstep, hca, haccle, hmem⟩ := hstepc
      rw [hstep] at hfirst hacc
      have hab : a.date ≤ b.date := hacc a rfl
      refine ⟨?_, ?_, ?_⟩
      · rcases hfirst with hf | hf
        · injection hf with hf
          subst hf
          rcases hmem with hm | hm
          · exact Or.inr hm
          · exact Or.inl hm
        · exact Or.inr ⟨List.mem_cons_of_mem _ hf.1, hf.2⟩
      · intro x hx hxp hxd
        rcases List.mem_cons.mp hx with rfl | hx
        · exact le_trans hca hab
        · exact hmax x hx hxp hxd
      · intro a0 ha0
        exact le_trans (haccle a0 ha0) hab
    · have hstep : bwStep pid d acc c = acc := by
        cases acc with
        | none => rw [bwStep, if_neg hc]
        | some b0 => rw [bwStep, if_neg hc]
      rw [hstep] at hfirst hacc
      refine ⟨?_, ?_, hacc⟩
      · rcases hfirst with hf | hf
        · exact Or.inl hf
        · exact Or.inr ⟨List.mem_cons_of_mem _ hf.1, hf.2⟩
      · intro x hx hxp hxd
        rcases List.mem_cons.mp hx with rfl | hx
        · exact absurd ⟨hxp, hxd⟩ hc
        · exact hmax x hx hxp hxd

theorem fwFold_none (pid : ℕ) (d : ℤ) :
    ∀ (l : List CostRecord) (acc : Option CostRecord),
      l.foldl (fwStep pid d) acc = none →
      acc = none ∧ ∀ c ∈ l, ¬ (c.productId = pid ∧ d ≤ c.date) := by
  intro l
  induction l with
  | nil => intro acc h; exact ⟨h, by simp⟩
  | cons c t ih =>
    intro acc h
    rw [List.foldl_cons] at h
    obtain ⟨hstep, hrest⟩ := ih (fwStep pid d acc c) h
    by_cases hc : c.productId = pid ∧ d ≤ c.date
    · exfalso
      cases acc with
      | none =>
        rw [fwStep, if_pos hc] at hstep
        exact Option.noConfusion hstep
      | some b =>
        rw [fwStep, if_pos hc] at hstep
        by_cases hd : c.date < b.date
        · rw [if_pos hd] at hstep; exact Option.noConfusion hstep
        · rw [if_neg hd] at hstep; exact Option.noConfusion hstep
    · cases acc with
      | none =>
        refine ⟨rfl, ?_⟩
        intro x hx
        rcases List.mem_cons.mp hx with rfl | hx
        · exact hc
        · exact hrest x hx
      | some b =>
        rw [fwStep, if_neg hc] at hstep
        exact Option.noConfusion hstep

theorem fwFold_some (pid : ℕ) (d : ℤ) :
    ∀ (l : List CostRecord) (acc : Option CostRecord) (b : CostRecord),
      l.foldl (fwStep pid d) acc = some b →
      (acc = some b ∨ (b ∈ l ∧ b.productId = pid ∧ d ≤ b.date)) ∧
        (∀ c ∈ l, c.productId = pid → d ≤ c.date → b.date ≤ c.date) ∧
        (∀ a, acc = some a → b.date ≤ a.date) := by
  intro l
  induction l with
  | nil =>
    intro acc b h
    simp only [List.foldl_nil] at h
    subst h
    refine ⟨Or.inl rfl, by simp, ?_⟩
    intro a ha
    injection ha with ha
    rw [ha]
  | cons c t ih =>
    intro acc b h
    rw [List.foldl_cons] at h
    obtain ⟨hfirst, hmin, hacc⟩ := ih (fwStep pid d acc c) b h
    by_cases hc : c.productId = pid ∧ d ≤ c.date
    · have hstepc : ∃ a, fwStep pid d acc c = some a ∧ a.date ≤ c.date ∧
          (∀ a0, acc = some a0 → a.date ≤ a0.date) ∧
          ((a ∈ c :: t ∧ a.productId = pid ∧ d ≤ a.date) ∨ acc = some a) := by
        cases acc with
        | none =>
          refine ⟨c, ?_, le_refl _, ?_, Or.inl ⟨List.mem_cons_self _ _, hc⟩⟩
          · rw [fwStep, if_pos hc]
          · intro a0 ha0; exact Option.noConfusion ha0
        | some b0 =>
          by_cases hd : c.date < b0.date
          · refine ⟨c, ?_, le_refl _, ?_, Or.inl ⟨List.mem_cons_self _ _, hc⟩⟩
            · rw [fwStep, if_pos hc, if_pos hd]
            · intro a0 ha0
              injection ha0 with h0
              rw [← h0]; exact le_of_lt hd
          · refine ⟨b0, ?_, by omega, ?_, Or.inr rfl⟩
            · rw [fwStep, if_pos hc, if_neg hd]
            · intro a0 ha0
              injection ha0 with h0
              rw [← h0]
      obtain ⟨a, hstep, hca, haccle, hmem⟩ := hstepc
      rw [hstep] at hfirst hacc
      have hab : b.date ≤ a.date := hacc a rfl
      refine ⟨?_, ?_, ?_⟩
      · rcases hfirst with hf | hf
        · injection hf with hf
          subst hf
          rcases hmem with hm | hm
          · exact Or.inr hm
          · exact Or.inl hm
        · exact Or.inr ⟨List.mem_cons_of_mem _ hf.1, hf.2⟩
      · intro x hx hxp hxd
        rcases List.mem_cons.mp hx with rfl | hx
        · exact le_trans hab hca
        · exact hmin x hx hxp hxd
      · intro a0 ha0
        exact le_trans hab (haccle a0 ha0)
    · have hstep : fwStep pid d acc c = acc := by
        cases acc with
        | none => rw [fwStep, if_neg hc]
        | some b0 => rw [fwStep, if_neg hc]
      rw [hstep] at hfirst hacc
      refine ⟨?_, ?_, hacc⟩
      · rcases hfirst with hf | hf
        · exact Or.inl hf
        · exact Or.inr ⟨List.mem_cons_of_mem _ hf.1, hf.2⟩
      · intro x hx hxp hxd
        rcases List.mem_cons.mp hx with rfl | hx
        · exact absurd ⟨hxp, hxd⟩ hc
        · exact hmin x hx hxp hxd

theorem mem_costsSorted (s : CalcData) (c : CostRecord) :
    c ∈ costsSorted s ↔ c ∈ s.costs := mem_sortBy _ c _

theorem mem_salesSorted (s : CalcData) (t : SaleTxn) :
    t ∈ salesSorted s ↔ t ∈ s.sales := mem_sortBy _ t _

/-- C7: cost resolution attaches to every sale the unit cost of the latest
    same-product record dated on or before the sale; failing that, of the
    earliest record dated on or after it; failing that, zero.  The step is
    total: it emits exactly one augmented row per sale and cannot fail. -/
theorem c7_theorem (s : CalcData) :
    (resolveCosts s).length = s.sales.length ∧
    ∀ pr ∈ resolveCosts s,
      (∃ c ∈ s.costs, c.productId = pr.1.productId ∧ c.date ≤ pr.1.recordedOn ∧
          pr.2 = c.cost ∧
          ∀ c2 ∈ s.costs, c2.productId = pr.1.productId → c2.date ≤ pr.1.recordedOn →
            c2.date ≤ c.date) ∨
      ((∀ c ∈ s.costs, c.productId = pr.1.productId → ¬ c.date ≤ pr.1.recordedOn) ∧
        ∃ c ∈ s.costs, c.productId = pr.1.productId ∧ pr.1.recordedOn ≤ c.date ∧
          pr.2 = c.cost ∧
          ∀ c2 ∈ s.costs, c2.productId = pr.1.productId → pr.1.recordedOn ≤ c2.date →
            c.date ≤ c2.date) ∨
      ((∀ c ∈ s.costs, c.productId ≠ pr.1.productId) ∧ pr.2 = 0) := by
  constructor
  · rw [resolveCosts, List.length_map, salesSorted, length_sortBy]
  · intro pr hpr
    rw [resolveCosts, List.mem_map] at hpr
    obtain ⟨t, _, rfl⟩ := hpr
    rw [costAtSale]
    cases hbw : backwardCost (costsSorted s) t.productId t.recordedOn with
    | some c =>
      left
      obtain ⟨hfirst, hmax, _⟩ := bwFold_some t.productId t.recordedOn _ none c hbw
      rcases hfirst with hf | ⟨hmem, hcp, hcd⟩
      · exact Option.noConfusion hf
      · refine ⟨c, (mem_costsSorted s c).mp hmem, hcp, hcd, rfl, ?_⟩
        intro c2 hc2 hc2p hc2d
        exact hmax c2 ((mem_costsSorted s c2).mpr hc2) hc2p hc2d
    | none =>
      obtain ⟨_, hnobw⟩ := bwFold_none t.productId t.recordedOn _ none hbw
      have hnobw2 : ∀ c ∈ s.costs, c.productId = t.productId → ¬ c.date ≤ t.recordedOn :=
        fun c hc hp hd => hnobw c ((mem_costsSorted s c).mpr hc) ⟨hp, hd⟩
      cases hfw : forwardCost (costsSorted s) t.productId t.recordedOn with
      | some c =>
        right; left
        obtain ⟨hfirst, hmin, _⟩ := fwFold_some t.productId t.recordedOn _ none c hfw
        rcases hfirst with hf | ⟨hmem, hcp, hcd⟩
        · exact Option.noConfusion hf
        · refine ⟨hnobw2, c, (mem_costsSorted s c).mp hmem, hcp, hcd, rfl, ?_⟩
          intro c2 hc2 hc2p hc2d
          exact hmin c2 ((mem_costsSorted s c2).mpr hc2) hc2p hc2d
      | none =>
        right; right
        obtain ⟨_, hnofw⟩ := fwFold_none t.productId t.recordedOn _ none hfw
        refine ⟨?_, rfl⟩
        intro c hc hp
        by_cases hd : c.date ≤ t.recordedOn
        · exact hnobw c ((mem_costsSorted s c).mpr hc) ⟨hp, hd⟩
        · exact hnofw c ((mem_costsSorted s c).mpr hc) ⟨hp, by omega⟩

theorem contigLoop_none (s : CalcData) (pid : ℕ) (n : ℕ) (minDays : ℚ) :
    ∀ (fuel : ℕ) (endW : ℤ),
      contigLoop s pid n minDays fuel endW = none ↔
        ∀ i < fuel, windowOk s pid minDays (windowAt endW n i) = false := by
  intro fuel
  induction fuel with
  | zero => intro endW; simp [contigLoop]
  | succ f ih =>
    intro endW
    rw [contigLoop]
    have hw0 : weekRange (endW - 7 * ((n : ℤ) - 1)) endW = windowAt endW n 0 := by
      rw [windowAt]
      norm_num
    by_cases h0 : windowOk s pid minDays (weekRange (endW - 7 * ((n : ℤ) - 1)) endW) = true
    · rw [if_pos h0]
      constructor
      · intro hc; exact Option.noConfusion hc
      · intro hall
        exfalso
        have hz := hall 0 (Nat.succ_pos f)
        rw [← hw0] at hz
        rw [h0] at hz
        exact Bool.noConfusion hz
    · rw [if_neg h0, ih (endW - 7)]
      have hshift : ∀ i : ℕ, windowAt (endW - 7) n i = windowAt endW n (i + 1) := by
        intro i
        rw [windowAt, windowAt]
        have h1 : endW - 7 - 7 * (i : ℤ) = endW - 7 * ((i + 1 : ℕ) : ℤ) := by
          push_cast; ring
        rw [h1]
      constructor
      · intro hall i hi
        cases i with
        | zero =>
          rw [← hw0]
          exact Bool.eq_false_iff.mpr (fun hc => h0 hc)
        | succ j =>
          rw [← hshift j]
          exact hall j (by omega)
      · intro hall i hi
        rw [hshift i]
        exact hall (i + 1) (by omega)

theorem contigLoop_some (s : CalcData) (pid : ℕ) (n : ℕ) (minDays : ℚ) :
    ∀ (fuel : ℕ) (endW : ℤ) (i : ℕ), i < fuel →
      windowOk s pid minDays (windowAt endW n i) = true →
      (∀ j < i, windowOk s pid minDays (windowAt endW n j) = false) →
      contigLoop s pid n minDays fuel endW = some (windowAt endW n i) := by
  intro fuel
  induction fuel with
  | zero => intro endW i hi; omega
  | succ f ih =>
    intro endW i hi hval hmin
    rw [contigLoop]
    have hw0 : weekRange (endW - 7 * ((n : ℤ) - 1)) endW = windowAt endW n 0 := by
      rw [windowAt]
      norm_num
    have hshift : ∀ k : ℕ, windowAt (endW - 7) n k = windowAt endW n (k + 1) := by
      intro k
      rw [windowAt, windowAt]
      have h1 : endW - 7 - 7 * (k : ℤ) = endW - 7 * ((k + 1 : ℕ) : ℤ) := by
        push_cast; ring
      rw [h1]
    cases i with
    | zero =>
      rw [hw0, if_pos hval]
    | succ j =>
      have h0 : windowOk s pid minDays (windowAt endW n 0) = false :=
        hmin 0 (Nat.succ_pos j)
      rw [hw0]
      rw [if_neg (by rw [h0]; exact Bool.false_ne_true)]
      rw [← hshift j] at hval ⊢
      refine ih (endW - 7) j (by omega) hval ?_
      intro k hk
      rw [hshift k]
      exact hmin (k + 1) (by omega)

/-- C2 (amended): in contiguous mode the selector returns the window ending
    at the first of at most 26 candidate end-weeks (the search end-week and
    25 one-week shifts) in which every week w of the n-week window has
    stock_days(w) at least 7 times tau/100, and none when no candidate
    qualifies.  In the Scenario A instance stock_days [7,7,6,7] at tau = 80
    the 6-day week satisfies 6 >= 5.6, so the first window is accepted, not
    rejected (see the counterexample). -/
theorem c2_theorem (s : CalcData) (pid : ℕ) (startW : ℤ) (n : ℕ) (pct : ℚ) :
    (findValidPreTestPeriod s pid startW n pct true = none ↔
      ∀ i < 26, ∃ w ∈ windowAt startW n i,
        (stockDaysLookup s pid w : ℚ) < 7 * (pct / 100)) ∧
    (∀ i < 26,
      (∀ w ∈ windowAt startW n i, 7 * (pct / 100) ≤ (stockDaysLookup s pid w : ℚ)) →
      (∀ j < i, ∃ w ∈ windowAt startW n j,
        (stockDaysLookup s pid w : ℚ) < 7 * (pct / 100)) →
      findValidPreTestPeriod s pid startW n pct true = some (windowAt startW n i)) := by
  have helem : ∀ w : ℤ,
      ((!decide ((stockDaysLookup s pid w : ℚ) < 7 * (pct / 100))) = true) ↔
        (7 * (pct / 100) ≤ (stockDaysLookup s pid w : ℚ)) := by
    intro w
    rw [Bool.not_eq_true', decide_eq_false_iff_not, not_lt]
  have hok2 : ∀ ws : List ℤ, (windowOk s pid (7 * (pct / 100)) ws = true ↔
      ∀ w ∈ ws, 7 * (pct / 100) ≤ (stockDaysLookup s pid w : ℚ)) := by
    intro ws
    rw [windowOk, List.all_eq_true]
    exact ⟨fun h w hw => (helem w).mp (h w hw), fun h w hw => (helem w).mpr (h w hw)⟩
  have hok : ∀ ws : List ℤ, (windowOk s pid (7 * (pct / 100)) ws = false ↔
      ∃ w ∈ ws, (stockDaysLookup s pid w : ℚ) < 7 * (pct / 100)) := by
    intro ws
    rw [Bool.eq_false_iff]
    constructor
    · intro h
      by_contra hc
      push_neg at hc
      apply h
      rw [hok2]
      intro w hw
      exact hc w hw
    · rintro ⟨w, hw, hlt⟩ hall
      have := (hok2 ws).mp hall w hw
      linarith
  constructor
  · rw [findValidPreTestPeriod, if_pos rfl, contigLoop_none]
    constructor
    · intro hall i hi
      exact (hok _).mp (hall i hi)
    · intro hall i hi
      exact (hok _).mpr (hall i hi)
  · intro i hi hval hmin
    rw [findValidPreTestPeriod, if_pos rfl]
    refine contigLoop_some s pid n (7 * (pct / 100)) 26 startW i hi ((hok2 _).mpr hval) ?_
    intro j hj
    exact (hok _).mpr (hmin j hj)

/-- C2 counterexample: with stock_days [7,7,6,7] over the candidate weeks
    and tau = 80 percent, the contiguous selector accepts the very first
    window even though it contains the 6-stock-day week -7, because the
    acceptance test is stock_days >= 7*tau/100 = 5.6 and 6 >= 5.6; the
    claim that every window containing the 6-day week is rejected is false. -/
theorem c2_counterexample :
    findValidPreTestPeriod cdataC2 1 0 4 80 true = some [-21, -14, -7, 0] ∧
    (-7 : ℤ) ∈ [(-21 : ℤ), -14, -7, 0] ∧
    stockDaysLookup cdataC2 1 (-7) = 6 ∧
    ¬ (((6 : ℕ) : ℚ) / 7 < 80 / 100) := by
  have hsd1 : stockDaysLookup cdataC2 1 (-21) = 7 := by decide
  have hsd2 : stockDaysLookup cdataC2 1 (-14) = 7 := by decide
  have hsd3 : stockDaysLookup cdataC2 1 (-7) = 6 := by decide
  have hsd4 : stockDaysLookup cdataC2 1 0 = 7 := by decide
  have hwin : weekRange (0 - 7 * (((4 : ℕ) : ℤ) - 1)) 0 = [-21, -14, -7, 0] := by decide
  refine ⟨?_, by decide, hsd3, by norm_num⟩
  rw [findValidPreTestPeriod, if_pos rfl, contigLoop, hwin]
  rw [if_pos ?hok]
  case hok =>
    rw [windowOk]
    simp only [List.all_cons, List.all_nil, hsd1, hsd2, hsd3, hsd4, Bool.and_true]
    norm_num

/-- C2 witness: the amended characterization applied at the Scenario A
    data, shift 0: the window [-21,-14,-7,0] is valid at tau = 80 (the
    6-day week passes since 6 >= 5.6) and is returned. -/
theorem c2_witness :
    findValidPreTestPeriod cdataC2 1 0 4 80 true = some (windowAt 0 4 0) ∧
    (-7 : ℤ) ∈ windowAt 0 4 0 ∧ stockDaysLookup cdataC2 1 (-7) = 6 := by
  have hsd1 : stockDaysLookup cdataC2 1 (-21) = 7 := by decide
  have hsd2 : stockDaysLookup cdataC2 1 (-14) = 7 := by decide
  have hsd3 : stockDaysLookup cdataC2 1 (-7) = 6 := by decide
  have hsd4 : stockDaysLookup cdataC2 1 0 = 7 := by decide
  have hwin : windowAt 0 4 0 = [-21, -14, -7, 0] := by decide
  refine ⟨?_, by rw [hwin]; decide, hsd3⟩
  refine (c2_theorem cdataC2 1 0 4 80).2 0 (by norm_num) ?_
    (fun j hj => absurd hj (Nat.not_lt_zero j))
  rw [hwin]
  intro w hw
  simp only [List.mem_cons, List.not_mem_nil, or_false] at hw
  rcases hw with rfl | rfl | rfl | rfl
  · rw [hsd1]; norm_num
  · rw [hsd2]; norm_num
  · rw [hsd3]; norm_num
  · rw [hsd4]; norm_num

theorem statusOf_canUse_iff (a b c d e f g h : Bool) :
    ((statusOf a b c d e f g h).2 = false ↔
      strStartsWith (statusOf a b c d e f g h).1 ("не та цена") = true) := by
  cases a <;> cases b <;> cases c <;> cases d <;> cases e <;> cases f <;> cases g <;>
    cases h <;> decide

theorem activationStepCore_some (s : CalcData) (p : ActParams) (pid : ℕ) (st : ActState)
    (w : ℤ) (pi : WeekPlanInfo) (r : ActivationRecord)
    (h : (activationStepCore s p pid st w pi).1 = some r) :
    r.productId = pid ∧ ∃ a b c d e f g hh : Bool,
      r.status = (statusOf a b c d e f g hh).1 ∧
      r.canUseInAnalysis = (statusOf a b c d e f g hh).2 := by
  simp only [activationStepCore] at h
  injection h with h1
  subst h1
  exact ⟨rfl, _, _, _, _, _, _, _, _, rfl, rfl⟩

theorem activationStep_some (s : CalcData) (p : ActParams) (pid : ℕ)
    (prices : List PriceRow) (st : ActState) (w : ℤ) (r : ActivationRecord)
    (h : (activationStep s p pid prices st w).1 = some r) :
    r.productId = pid ∧ ∃ a b c d e f g hh : Bool,
      r.status = (statusOf a b c d e f g hh).1 ∧
      r.canUseInAnalysis = (statusOf a b c d e f g hh).2 := by
  rw [activationStep] at h
  cases hpi : weekPlanInfo p prices w with
  | none =>
    rw [hpi] at h
    simp only [Option.elim] at h
    exact Option.noConfusion h
  | some pi =>
    rw [hpi] at h
    simp only [Option.elim] at h
    exact activationStepCore_some s p pid st w pi r h

theorem mem_activationWalk (s : CalcData) (p : ActParams) (pid : ℕ)
    (prices : List PriceRow) :
    ∀ (ws : List ℤ) (st : ActState) (r : ActivationRecord),
      r ∈ activationWalk s p pid prices ws st →
      ∃ st0 w, (activationStep s p pid prices st0 w).1 = some r := by
  intro ws
  induction ws with
  | nil => intro st r h; exact absurd h (List.not_mem_nil r)
  | cons w ws ih =>
    intro st r h
    rw [activationWalk] at h
    rcases List.mem_append.mp h with h | h
    · cases ho : (activationStep s p pid prices st w).1 with
      | none => rw [ho] at h; exact absurd h (List.not_mem_nil r)
      | some r0 =>
        rw [ho] at h
        rcases List.mem_cons.mp h with rfl | h
        · exact ⟨st, w, ho⟩
        · exact absurd h (List.not_mem_nil r)
    · exact ih _ r h

theorem mem_activationForProduct (s : CalcData) (p : ActParams) (pid : ℕ)
    (r : ActivationRecord) (h : r ∈ activationForProduct s p pid) :
    ∃ st0 w, (activationStep s p pid (productPricesSorted s pid) st0 w).1 = some r := by
  rw [activationForProduct] at h
  cases hp : productPricesSorted s pid with
  | nil => rw [hp] at h; exact absurd h (List.not_mem_nil r)
  | cons p0 rest =>
    rw [hp] at h
    cases hl : lastDataWeek s with
    | none => rw [hl] at h; exact absurd h (List.not_mem_nil r)
    | some lw =>
      rw [hl] at h
      obtain ⟨st0, w, hw⟩ := mem_activationWalk s p pid (p0 :: rest) _ _ r h
      exact ⟨st0, w, hw⟩

theorem activationForProduct_pid (s : CalcData) (p : ActParams) (pid : ℕ)
    (r : ActivationRecord) (h : r ∈ activationForProduct s p pid) : r.productId = pid := by
  obtain ⟨st0, w, hw⟩ := mem_activationForProduct s p pid r h
  exact (activationStep_some s p pid _ st0 w r hw).1

theorem mem_getActivationDetails (s : CalcData) (p : ActParams) (r : ActivationRecord)
    (h : r ∈ getActivationDetails s p) :
    ∃ pid st0 w, (activationStep s p pid (productPricesSorted s pid) st0 w).1 = some r := by
  rw [getActivationDetails] at h
  obtain ⟨pid, _, hr⟩ := List.mem_flatMap.mp h
  obtain ⟨st0, w, hw⟩ := mem_activationForProduct s p pid r hr
  exact ⟨pid, st0, w, hw⟩

/-- Every classifier row satisfies: can_use_in_analysis is false exactly
    when the status begins with the mismatched-price marker. -/
theorem actRecord_canUse_iff (s : CalcData) (p : ActParams) (r : ActivationRecord)
    (h : r ∈ getActivationDetails s p) :
    (r.canUseInAnalysis = false ↔ strStartsWith r.status ("не та цена") = true) := by
  obtain ⟨pid, st0, w, hw⟩ := mem_getActivationDetails s p r h
  obtain ⟨_, a, b, c, d, e, f, g, hh, hs, hc⟩ := activationStep_some s p pid _ st0 w r hw
  rw [hs, hc]
  exact statusOf_canUse_iff a b c d e f g hh

theorem filter_pid_flatMap (s : CalcData) (p : ActParams) (pid : ℕ) :
    ∀ l : List ℕ, l.Nodup → pid ∈ l →
      ((l.flatMap (activationForProduct s p)).filter
        (fun r => decide (r.productId = pid))) = activationForProduct s p pid := by
  intro l
  induction l with
  | nil => intro _ h; exact absurd h (List.not_mem_nil pid)
  | cons q t ih =>
    intro hnd hmem
    rw [List.flatMap_cons, List.filter_append]
    by_cases hq : q = pid
    · subst hq
      have hqt : q ∉ t := (List.nodup_cons.mp hnd).1
      have h1 : (activationForProduct s p q).filter (fun r => decide (r.productId = q)) =
          activationForProduct s p q := by
        apply List.filter_eq_self.mpr
        intro r hr
        exact decide_eq_true (activationForProduct_pid s p q r hr)
      have h2 : ((t.flatMap (activationForProduct s p)).filter
          (fun r => decide (r.productId = q))) = [] := by
        apply List.filter_eq_nil_iff.mpr
        intro r hr
        obtain ⟨q2, hq2, hr2⟩ := List.mem_flatMap.mp hr
        have hpq : r.productId = q2 := activationForProduct_pid s p q2 r hr2
        simp only [decide_eq_true_eq]
        rw [hpq]
        intro hc
        exact hqt (hc ▸ hq2)
      rw [h1, h2, List.append_nil]
    · have hmem2 : pid ∈ t := by
        rcases List.mem_cons.mp hmem with h1 | h1
        · exact absurd h1.symm hq
        · exact h1
      have h1 : (activationForProduct s p q).filter (fun r => decide (r.productId = pid)) =
          [] := by
        apply List.filter_eq_nil_iff.mpr
        intro r hr
        simp only [decide_eq_true_eq]
        rw [activationForProduct_pid s p q r hr]
        exact hq
      rw [h1, List.nil_append]
      exact ih (List.nodup_cons.mp hnd).2 hmem2

/-- C9: the activation classifier is deterministic and keeps no hidden
    state across calls: running it does not modify the calculator data, a
    second run on the state left by the first returns the same record list,
    and the full run restricted to one product equals the fresh
    single-product run (the specific_pid mode), so each walk starts from
    the same initial state. -/
theorem c9_theorem (s : CalcData) (p : ActParams) :
    (getActivationDetailsM s p).2 = s ∧
    (getActivationDetailsM ((getActivationDetailsM s p).2) p).1 =
      (getActivationDetailsM s p).1 ∧
    ∀ pid ∈ testPidsOf s,
      ((getActivationDetails s p).filter (fun r => decide (r.productId = pid))) =
        activationForProduct s p pid := by
  refine ⟨rfl, rfl, ?_⟩
  intro pid hpid
  rw [getActivationDetails]
  exact filter_pid_flatMap s p pid (testPidsOf s) (nodup_uniqList _) hpid

theorem resolveCoincidence_lock (first blocked our0 : Bool) (c : ℚ)
    (h : first = true ∨ blocked = true) (hc : c ≤ 1) :
    resolveCoincidence first blocked true true (some c) our0 = (true, false, true) := by
  have hcc : ¬ (1 < c) := not_lt.mpr hc
  by_cases hf : first = true
  · subst hf
    simp [resolveCoincidence, hc, hcc]
  · have hb : blocked = true := h.resolve_left hf
    have hf2 : first = false := Bool.eq_false_iff.mpr hf
    subst hb
    subst hf2
    simp [resolveCoincidence, hc, hcc]

theorem resolveCoincidence_release (first our0 : Bool) (c : ℚ) (hc : 1 < c) :
    (resolveCoincidence first true true true (some c) our0).1 = false := by
  have hcc : ¬ (c ≤ 1) := not_le.mpr hc
  cases first <;> simp [resolveCoincidence, hc, hcc]

/-- C5: the first-period coincidence rule and the same-price lock
    (lines 493-541).  On the very first test week, when it has sales with a
    WAP within 1 percent of the previously recorded fact price, or on any
    sales week while the lock is held with a WAP within 1 percent of the
    previous fact price, the week is classified "не та цена (совпадение)"
    with can_use_in_analysis = false regardless of any plan-price match,
    and the lock is carried forward; the lock releases exactly on a sales
    week whose WAP differs from the previous fact price by more than
    1 percent. -/
theorem c5_theorem (s : CalcData) (p : ActParams) (pid : ℕ) (prices : List PriceRow)
    (st : ActState) (w : ℤ) (pi : WeekPlanInfo) (pf : ℚ)
    (hpi : weekPlanInfo p prices w = some pi)
    (hsales : (weekFact s p pid w pi).2.1 = true)
    (hpf : st.prevFactPrice = some pf) (hpf0 : 0 < pf) :
    ((st.isFirstPeriod = true ∨ st.blockedSamePrice = true) →
      qabs ((weekFact s p pid w pi).1 - pf) / pf * 100 ≤ 1 →
      ∃ r, (activationStep s p pid prices st w).1 = some r ∧
        r.status = "не та цена (совпадение)" ∧
        r.canUseInAnalysis = false ∧
        (activationStep s p pid prices st w).2.blockedSamePrice = true) ∧
    (st.blockedSamePrice = true →
      1 < qabs ((weekFact s p pid w pi).1 - pf) / pf * 100 →
      (activationStep s p pid prices st w).2.blockedSamePrice = false) := by
  have hstep : activationStep s p pid prices st w = activationStepCore s p pid st w pi := by
    rw [activationStep, hpi]
    rfl
  have hdec : decide (0 < pf) = true := decide_eq_true hpf0
  refine ⟨?_, ?_⟩
  · intro hOr hc
    rw [hstep]
    simp only [activationStepCore, hsales, hpf, hdec, Bool.true_and, Bool.and_true,
      Bool.and_self, if_true, Option.map_some']
    rw [resolveCoincidence_lock _ _ _ _ hOr hc]
    exact ⟨_, rfl, rfl, rfl, rfl⟩
  · intro hblk hc
    rw [hstep]
    simp only [activationStepCore, hsales, hpf, hdec, Bool.true_and, Bool.and_true,
      Bool.and_self, if_true, Option.map_some']
    rw [hblk]
    exact resolveCoincidence_release _ _ _ hc

theorem mem_of_getLastOpt {α : Type} {l : List α} {a : α}
    (h : l.getLast? = some a) : a ∈ l := by
  induction l with
  | nil => exact Option.noConfusion h
  | cons b t ih =>
    cases t with
    | nil =>
      simp only [List.getLast?_singleton, Option.some.injEq] at h
      rw [← h]
      exact List.mem_cons_self b []
    | cons c u =>
      rw [List.getLast?_cons_cons] at h
      exact List.mem_cons_of_mem b (ih h)

theorem weekMonday_emod (d : ℤ) : Int.emod (weekMonday d) 7 = 0 := by
  show weekMonday d % 7 = 0
  rw [weekMonday]
  show (d - d % 7) % 7 = 0
  omega

theorem controlWeeks_emod (s : CalcData) (w : ℤ) (h : w ∈ controlWeeks s) :
    Int.emod w 7 = 0 := by
  rw [controlWeeks, mem_sortBy] at h
  obtain ⟨h1, _⟩ := List.mem_filter.mp h
  rw [mem_uniqList] at h1
  obtain ⟨t, _, rfl⟩ := List.mem_map.mp h1
  exact weekMonday_emod t.recordedOn

theorem testPeriodStartWeek_emod (s : CalcData) (pid : ℕ) :
    Int.emod (testPeriodStartWeekOf s pid) 7 = 0 := by
  show testPeriodStartWeekOf s pid % 7 = 0
  have h : weekMonday (startDateOf s pid) % 7 = 0 := weekMonday_emod (startDateOf s pid)
  rw [testPeriodStartWeekOf]
  split_ifs <;> omega

theorem calcWeekRecord_base_fields (s : CalcData) (p : CalcParams) (pid : ℕ) (w : ℤ) :
    (calcWeekRecord s p pid w).productId = pid ∧
    (calcWeekRecord s p pid w).rtb = rtbOf s p pid ∧
    (calcWeekRecord s p pid w).rcb = rcbOf s p pid := by
  rw [calcWeekRecord]
  split_ifs <;> exact ⟨rfl, rfl, rfl⟩

theorem calcWeekRecord_excluded_fields (s : CalcData) (p : CalcParams) (pid : ℕ) (w : ℤ)
    (hcond : (weekExcludedOf s p pid w || weekNotOurOf s p pid w) = true) :
    (calcWeekRecord s p pid w).isExcluded = true ∧
    (calcWeekRecord s p pid w).absEffectRevenue = 0 ∧
    (calcWeekRecord s p pid w).absEffectProfit = 0 := by
  rw [calcWeekRecord, if_pos hcond]
  exact ⟨rfl, rfl, rfl⟩

theorem calcWeekRecord_not_excluded_fields (s : CalcData) (p : CalcParams) (pid : ℕ)
    (w : ℤ) (hcond : (weekExcludedOf s p pid w || weekNotOurOf s p pid w) = false) :
    (calcWeekRecord s p pid w).isExcluded = false ∧
    (calcWeekRecord s p pid w).factRevenue = weeklyRevenueD s pid w ∧
    (calcWeekRecord s p pid w).controlFactRevenue = controlRevenueD s w ∧
    (calcWeekRecord s p pid w).effectRevenuePct = effectRevenueOf s p pid w ∧
    (calcWeekRecord s p pid w).absEffectRevenue =
      effectRevenueOf s p pid w * weeklyRevenueD s pid w := by
  rw [calcWeekRecord, if_neg (by rw [hcond]; exact Bool.false_ne_true)]
  exact ⟨rfl, rfl, rfl, rfl, rfl⟩

theorem mem_calcProductRows (s : CalcData) (p : CalcParams) (pid : ℕ) (r : EffectRecord)
    (h : r ∈ calcProductRows s p pid) :
    r.productId = pid ∧ r.rtb = rtbOf s p pid ∧ r.rcb = rcbOf s p pid ∧
      ¬ (rtbOf s p pid = 0 ∨ rcbOf s p pid = 0) ∧
      ∃ w ∈ availableWeeksOf s p pid, r = calcWeekRecord s p pid w := by
  rw [calcProductRows] at h
  by_cases h1 : (productInfo s pid).isEmpty = true
  · rw [if_pos h1] at h; exact absurd h (List.not_mem_nil r)
  · rw [if_neg h1] at h
    cases hpt : preTestListOf s p pid with
    | none => rw [hpt] at h; exact absurd h (List.not_mem_nil r)
    | some l =>
      rw [hpt] at h
      by_cases h2 : (validPreWeeksOf s p pid).isEmpty = true
      · rw [if_pos h2] at h; exact absurd h (List.not_mem_nil r)
      · rw [if_neg h2] at h
        by_cases h3 : rtbOf s p pid = 0 ∨ rcbOf s p pid = 0
        · rw [if_pos h3] at h; exact absurd h (List.not_mem_nil r)
        · rw [if_neg h3] at h
          obtain ⟨w, hw, hr⟩ := List.mem_map.mp h
          obtain ⟨hf1, hf2, hf3⟩ := calcWeekRecord_base_fields s p pid w
          subst hr
          exact ⟨hf1, hf2, hf3, h3, w, hw, rfl⟩

theorem self_mem_validTestWeeks (s : CalcData) (p : CalcParams) (pid : ℕ) (w : ℤ)
    (hw : w ∈ availableWeeksOf s p pid)
    (hcond : (weekExcludedOf s p pid w || weekNotOurOf s p pid w) = false) :
    w ∈ validTestWeeksOf s p pid w := by
  have hw2 := hw
  rw [availableWeeksOf] at hw2
  obtain ⟨hwc, hwd⟩ := List.mem_filter.mp hw2
  have hle : testPeriodStartWeekOf s pid ≤ w := of_decide_eq_true hwd
  have hw7 : w % 7 = 0 := controlWeeks_emod s w hwc
  have ht7 : testPeriodStartWeekOf s pid % 7 = 0 := testPeriodStartWeek_emod s pid
  have hdvd : (7 : ℤ) ∣ w - testPeriodStartWeekOf s pid :=
    dvd_sub (Int.dvd_of_emod_eq_zero hw7) (Int.dvd_of_emod_eq_zero ht7)
  obtain ⟨he, hn⟩ := Bool.or_eq_false_iff.mp hcond
  rw [validTestWeeksOf]
  apply List.mem_filter.mpr
  refine ⟨end_mem_weekRange _ _ hle hdvd, ?_⟩
  rw [statusEntryOf, if_pos hw]
  simp [he, hn]

/-- C4: every effect row with is_excluded true has both absolute effects
    equal to 0, and the baselines R_tb and R_cb carried on any two rows of
    the same product are identical (excluded rows included). -/
theorem c4_theorem (s : CalcData) (p : CalcParams) :
    (∀ r ∈ calculateRows s p, r.isExcluded = true →
      r.absEffectRevenue = 0 ∧ r.absEffectProfit = 0) ∧
    (∀ r1 ∈ calculateRows s p, ∀ r2 ∈ calculateRows s p,
      r1.productId = r2.productId → r1.rtb = r2.rtb ∧ r1.rcb = r2.rcb) := by
  constructor
  · intro r hr hex
    rw [calculateRows] at hr
    obtain ⟨pid, _, hrmem⟩ := List.mem_flatMap.mp hr
    obtain ⟨_, _, _, _, w, hw, hrec⟩ := mem_calcProductRows s p pid r hrmem
    subst hrec
    by_cases hcond : (weekExcludedOf s p pid w || weekNotOurOf s p pid w) = true
    · obtain ⟨_, ha, hb⟩ := calcWeekRecord_excluded_fields s p pid w hcond
      exact ⟨ha, hb⟩
    · obtain ⟨hfe, _, _, _, _⟩ := calcWeekRecord_not_excluded_fields s p pid w
        (Bool.eq_false_iff.mpr hcond)
      rw [hfe] at hex
      exact Bool.noConfusion hex
  · intro r1 hr1 r2 hr2 hpid
    rw [calculateRows] at hr1 hr2
    obtain ⟨pid1, _, hm1⟩ := List.mem_flatMap.mp hr1
    obtain ⟨pid2, _, hm2⟩ := List.mem_flatMap.mp hr2
    obtain ⟨hp1, ht1, hc1, _, _⟩ := mem_calcProductRows s p pid1 r1 hm1
    obtain ⟨hp2, ht2, hc2, _, _⟩ := mem_calcProductRows s p pid2 r2 hm2
    have : pid1 = pid2 := by rw [← hp1, ← hp2, hpid]
    subst this
    rw [ht1, ht2, hc1, hc2]
    exact ⟨rfl, rfl⟩

/-- C3: when all sale prices and quantities are nonnegative, every emitted
    effect row has strictly positive baselines R_tb and R_cb; a product
    whose pre-test window search fails, whose window has no weekly-sales
    row, or whose baseline revenue on either side is zero, contributes no
    rows at all. -/
theorem c3_theorem (s : CalcData) (p : CalcParams)
    (hpos : ∀ t ∈ s.sales, 0 ≤ t.price ∧ 0 ≤ t.quantity) :
    (∀ r ∈ calculateRows s p, 0 < r.rtb ∧ 0 < r.rcb) ∧
    (∀ pid : ℕ,
      (preTestListOf s p pid = none ∨ validPreWeeksOf s p pid = [] ∨
        rtbOf s p pid = 0 ∨ rcbOf s p pid = 0) →
      calcProductRows s p pid = []) := by
  have hwr : ∀ pid w, 0 ≤ weeklyRevenue s pid w := by
    intro pid w
    apply List.sum_nonneg
    intro x hx
    obtain ⟨t, ht, rfl⟩ := List.mem_map.mp hx
    have ht2 : t ∈ s.sales := by
      have := (List.mem_filter.mp ht).1
      exact (mem_salesSorted s t).mp this
    obtain ⟨hp1, hq1⟩ := hpos t ht2
    exact mul_nonneg hp1 hq1
  have hcr : ∀ w, 0 ≤ controlRevenueD s w := by
    intro w
    rw [controlRevenueD]
    split_ifs with hk
    · apply List.sum_nonneg
      intro x hx
      obtain ⟨t, ht, rfl⟩ := List.mem_map.mp hx
      have ht2 : t ∈ s.sales := by
        have h1 := (List.mem_filter.mp ht).1
        exact (List.mem_filter.mp h1).1
      obtain ⟨hp1, hq1⟩ := hpos t ht2
      exact mul_nonneg hp1 hq1
    · exact le_refl 0
  have hrtb : ∀ pid, 0 ≤ rtbOf s p pid := by
    intro pid
    rw [rtbOf]
    apply div_nonneg
    · apply List.sum_nonneg
      intro x hx
      obtain ⟨w, _, rfl⟩ := List.mem_map.mp hx
      exact hwr pid w
    · exact Nat.cast_nonneg _
  have hrcb : ∀ pid, 0 ≤ rcbOf s p pid := by
    intro pid
    rw [rcbOf]
    apply div_nonneg
    · apply List.sum_nonneg
      intro x hx
      obtain ⟨w, _, rfl⟩ := List.mem_map.mp hx
      exact hcr w
    · exact Nat.cast_nonneg _
  constructor
  · intro r hr
    rw [calculateRows] at hr
    obtain ⟨pid, _, hrmem⟩ := List.mem_flatMap.mp hr
    obtain ⟨_, ht, hc, hguard, _, _, _⟩ := mem_calcProductRows s p pid r hrmem
    push_neg at hguard
    rw [ht, hc]
    exact ⟨lt_of_le_of_ne (hrtb pid) (Ne.symm hguard.1),
      lt_of_le_of_ne (hrcb pid) (Ne.symm hguard.2)⟩
  · intro pid hcond
    rw [calcProductRows]
    by_cases h1 : (productInfo s pid).isEmpty = true
    · rw [if_pos h1]
    · rw [if_neg h1]
      cases hpt : preTestListOf s p pid with
      | none => rfl
      | some l =>
        rcases hcond with hc | hc | hc | hc
        · rw [hpt] at hc; exact Option.noConfusion hc
        · rw [if_pos (by rw [hc]; rfl)]
        · by_cases h2 : (validPreWeeksOf s p pid).isEmpty = true
          · rw [if_pos h2]
          · rw [if_neg h2, if_pos (Or.inl hc)]
        · by_cases h2 : (validPreWeeksOf s p pid).isEmpty = true
          · rw [if_pos h2]
          · rw [if_neg h2, if_pos (Or.inr hc)]

/-- C6: on a non-excluded week in week-values mode whose realized test
    revenue is zero, the revenue effect percentage collapses to
    -1 - uplift_control and the absolute revenue effect is zero. -/
theorem c6_theorem (s : CalcData) (p : CalcParams) (r : EffectRecord)
    (hmode : p.testUseWeekValues = true) (hr : r ∈ calculateRows s p)
    (hex : r.isExcluded = false) (h0 : r.factRevenue = 0) :
    r.effectRevenuePct = -1 - (r.controlFactRevenue / r.rcb - 1) ∧
    r.absEffectRevenue = 0 := by
  rw [calculateRows] at hr
  obtain ⟨pid, _, hrmem⟩ := List.mem_flatMap.mp hr
  obtain ⟨_, _, hrcbf, hguard, w, hw, hrec⟩ := mem_calcProductRows s p pid r hrmem
  subst hrec
  by_cases hcond : (weekExcludedOf s p pid w || weekNotOurOf s p pid w) = true
  · obtain ⟨hie, _, _⟩ := calcWeekRecord_excluded_fields s p pid w hcond
    rw [hie] at hex
    exact Bool.noConfusion hex
  · have hcond2 : (weekExcludedOf s p pid w || weekNotOurOf s p pid w) = false :=
      Bool.eq_false_iff.mpr hcond
    obtain ⟨_, hf, hcf, hep, hab⟩ := calcWeekRecord_not_excluded_fields s p pid w hcond2
    rw [hf] at h0
    have hmemv : w ∈ validTestWeeksOf s p pid w := self_mem_validTestWeeks s p pid w hw hcond2
    have hne : (validTestWeeksOf s p pid w).isEmpty = false := by
      cases hv : validTestWeeksOf s p pid w with
      | nil => rw [hv] at hmemv; exact absurd hmemv (List.not_mem_nil w)
      | cons a l => rfl
    have hnet : ¬ ((validTestWeeksOf s p pid w).isEmpty = true) := by
      rw [hne]; exact Bool.false_ne_true
    have hrtt : rttOf s p pid w = 0 := by
      rw [rttOf, if_neg hnet, if_pos hmode]
      exact h0
    have hrct : rctOf s p pid w = controlRevenueD s w := by
      rw [rctOf, if_neg hnet, if_pos hmode]
    have hrcb0 : ¬ rcbOf s p pid = 0 := fun hh => hguard (Or.inr hh)
    have heff : effectRevenueOf s p pid w =
        -1 - (controlRevenueD s w / rcbOf s p pid - 1) := by
      rw [effectRevenueOf, if_pos hrtt, hrct]
      rw [if_neg (fun hh : _ ∧ _ => hrcb0 hh.2), if_neg hrcb0]
    constructor
    · rw [hep, hcf, hrcbf]
      exact heff
    · rw [hab, h0, mul_zero]

/-- C10: a classifier row has can_use_in_analysis = false exactly when its
    status string starts with the mismatched-price marker "не та цена", and
    the effect calculation, which reads the status prefix rather than the
    flag, therefore excludes exactly the weeks whose looked-up row carries
    can_use_in_analysis = false (weeks without a row are never excluded by
    activation). -/
theorem c10_theorem (s : CalcData) (p : ActParams) (cp : CalcParams) (pid : ℕ) (w : ℤ) :
    (∀ r ∈ getActivationDetails s p,
      (r.canUseInAnalysis = false ↔ strStartsWith r.status ("не та цена") = true)) ∧
    (∀ r, activationRecordLookup s cp pid w = some r →
      weekNotOurOf s cp pid w = !r.canUseInAnalysis) ∧
    (activationRecordLookup s cp pid w = none → weekNotOurOf s cp pid w = false) := by
  refine ⟨fun r hr => actRecord_canUse_iff s p r hr, ?_, ?_⟩
  · intro r hlook
    have hstat : activationStatusLookup s cp pid w = r.status := by
      rw [activationStatusLookup, hlook]
      rfl
    rw [weekNotOurOf, hstat]
    have hmem : r ∈ getActivationDetails s (actParamsOf cp ((cp.activationThreshold).getD 0)) := by
      rw [activationRecordLookup] at hlook
      cases hat : cp.activationThreshold with
      | none => rw [hat] at hlook; exact Option.noConfusion hlook
      | some theta =>
        rw [hat] at hlook
        have hmem2 := mem_of_getLastOpt hlook
        exact (List.mem_filter.mp hmem2).1
    have hiff := actRecord_canUse_iff s _ r hmem
    cases hcu : r.canUseInAnalysis with
    | false => rw [hiff.mp hcu]; rfl
    | true =>
      have : ¬ (strStartsWith r.status ("не та цена") = true) := by
        intro hc
        have := hiff.mpr hc
        rw [hcu] at this
        exact Bool.noConfusion this
      rw [Bool.eq_false_iff.mpr this]
      rfl
  · intro hlook
    rw [weekNotOurOf, activationStatusLookup, hlook]
    rfl

/-- C1 (amended): with rounding enabled, round_value 90 and direction up, a
    raw plan price of exactly 100.00 is kept at 100.00 (whole prices bypass
    the fractional policy; the claimed 100.90 is wrong, see the
    counterexample), and the fact price 100.85 then deviates 0.85 percent
    from the plan, still within the 1 percent threshold, so the week is
    classified "ОК (текущая)" with can_use_in_analysis = true. -/
theorem c1_theorem :
    roundPrice 90 RoundDir.up 100 = some 100 ∧
    ((activationStep cdataC1 pC1 1 (cdataC1.testPrices) stC1 0).1.map
        (fun r => (r.planPriceCurrent, r.deviationFromCurrentPct, r.status,
          r.canUseInAnalysis))) =
      some (100, some (17/20), ("ОК (текущая)"), true) := by
  have hr100 : roundPrice 90 RoundDir.up 100 = some 100 := by
    norm_num [roundPrice]
  refine ⟨hr100, ?_⟩
  have hpi : weekPlanInfo pC1 cdataC1.testPrices 0 = some piC1 := by
    rw [weekPlanInfo]
    norm_num [cdataC1, pC1, piC1, weekMonday, hr100]
  rw [activationStep, hpi]
  have htx : txnsFor cdataC1 1 0 = [⟨1, 6, 2017/20, 1⟩] := by
    rw [txnsFor]
    norm_num [cdataC1, salesSorted, sortBy, insortBy, weekMonday]
  have hkept : weekKept cdataC1 0 = true := by
    rw [weekKept]
    norm_num [cdataC1, maxSaleDate]
  have hrow : weeklyRow? cdataC1 1 0 = some (2017/20, 1, 0) := by
    rw [weeklyRow?, hasWeeklyRow, weeklyRevenue, weeklyQuantity, weeklyCostVolume,
      htx, hkept]
    norm_num [costAtSale, backwardCost, forwardCost, costsSorted, sortBy, cdataC1]
  have hwf : weekFact cdataC1 pC1 1 0 piC1 = (2017/20, true, none) := by
    rw [weekFact, hrow]
    norm_num [pC1]
  show ((activationStepCore cdataC1 pC1 1 stC1 0 piC1).1.map _) = _
  rw [activationStepCore, hwf]
  norm_num [stC1, piC1, pC1, qabs, resolveCoincidence, statusOf, hrow]
  all_goals decide

/-- C5 witness: on the Scenario C data the first test week has sales at WAP
    100, a 0 percent change from the recorded fact price 100, and although
    the WAP matches the plan price exactly, the first-period coincidence
    rule classifies the week "не та цена (совпадение)" with
    can_use_in_analysis = false and carries the lock forward. -/
theorem c5_witness :
    weekPlanInfo pC5 cdataC5.testPrices 0 = some piC5 ∧
    (weekFact cdataC5 pC5 1 0 piC5).2.1 = true ∧
    stC5.prevFactPrice = some 100 ∧ (0 : ℚ) < 100 ∧
    stC5.isFirstPeriod = true ∧
    qabs ((weekFact cdataC5 pC5 1 0 piC5).1 - 100) / 100 * 100 ≤ 1 ∧
    ∃ r, (activationStep cdataC5 pC5 1 cdataC5.testPrices stC5 0).1 = some r ∧
      r.status = "не та цена (совпадение)" ∧
      r.canUseInAnalysis = false ∧
      (activationStep cdataC5 pC5 1 cdataC5.testPrices stC5 0).2.blockedSamePrice =
        true := by
  have hru : roundPrice 0 RoundDir.nearest 100 = some 100 := by
    norm_num [roundPrice]
  have hpi : weekPlanInfo pC5 cdataC5.testPrices 0 = some piC5 := by
    rw [weekPlanInfo]
    norm_num [cdataC5, pC5, piC5, weekMonday, hru]
  have htx : txnsFor cdataC5 1 0 = [⟨1, 6, 100, 1⟩] := by
    rw [txnsFor]
    norm_num [cdataC5, salesSorted, sortBy, insortBy, weekMonday]
  have hkept : weekKept cdataC5 0 = true := by
    rw [weekKept]
    norm_num [cdataC5, maxSaleDate]
  have hrow : weeklyRow? cdataC5 1 0 = some (100, 1, 0) := by
    rw [weeklyRow?, hasWeeklyRow, weeklyRevenue, weeklyQuantity, weeklyCostVolume,
      htx, hkept]
    norm_num [costAtSale, backwardCost, forwardCost, costsSorted, sortBy, cdataC5]
  have hwf : weekFact cdataC5 pC5 1 0 piC5 = (100, true, none) := by
    rw [weekFact, hrow]
    norm_num [pC5]
  have hsales : (weekFact cdataC5 pC5 1 0 piC5).2.1 = true := by
    rw [hwf]
  have hc : qabs ((weekFact cdataC5 pC5 1 0 piC5).1 - 100) / 100 * 100 ≤ 1 := by
    rw [hwf]
    norm_num [qabs]
  exact ⟨hpi, hsales, rfl, by norm_num, rfl, hc,
    (c5_theorem cdataC5 pC5 1 cdataC5.testPrices stC5 0 piC5 100 hpi hsales rfl
      (by norm_num)).1 (Or.inl rfl) hc⟩

theorem c6_data_row :
    preTestListOf cdataC6 pC6 1 = some [7] ∧
    validPreWeeksOf cdataC6 pC6 1 = [7] ∧
    rtbOf cdataC6 pC6 1 = 1000 ∧
    rcbOf cdataC6 pC6 1 = 500 ∧
    controlRevenueD cdataC6 14 = 600 ∧
    (weekExcludedOf cdataC6 pC6 1 14 || weekNotOurOf cdataC6 pC6 1 14) = false ∧
    calculateRows cdataC6 pC6 = [recC6] := by
  have hval : windowOk cdataC6 1 (7 * ((0 : ℚ) / 100)) (windowAt 7 1 0) = true := by
    rw [show windowAt 7 1 0 = [7] from by decide]
    rw [windowOk]
    simp only [List.all_cons, List.all_nil, Bool.and_true]
    rw [show stockDaysLookup cdataC6 1 7 = 0 from by decide]
    norm_num
  have hptl : preTestListOf cdataC6 pC6 1 = some [7] := by
    rw [preTestListOf, findValidPreTestPeriod,
      if_pos (show pC6.contiguousPreTest = true from rfl)]
    rw [show preTestSearchEndOf cdataC6 1 = 7 from by decide]
    have hc := contigLoop_some cdataC6 1 1 (7 * ((0 : ℚ) / 100)) 26 7 0 (by norm_num)
      hval (fun j hj => absurd hj (Nat.not_lt_zero j))
    rw [show windowAt 7 1 0 = [7] from by decide] at hc
    exact hc
  have hvp : validPreWeeksOf cdataC6 pC6 1 = [7] := by
    rw [validPreWeeksOf, preTestListD, hptl]
    decide
  have htx7 : txnsFor cdataC6 1 7 = [⟨1, 7, 1000, 1⟩] := by
    rw [txnsFor]
    norm_num [cdataC6, salesSorted, sortBy, insortBy, weekMonday]
  have hwr7 : weeklyRevenue cdataC6 1 7 = 1000 := by
    rw [weeklyRevenue, htx7]
    norm_num
  have hrtb : rtbOf cdataC6 pC6 1 = 1000 := by
    rw [rtbOf, hvp]
    simp only [List.map_cons, List.map_nil, List.sum_cons, List.sum_nil, List.length_cons,
      List.length_nil, hwr7]
    norm_num
  have hctl : controlTxns cdataC6 = [⟨2, 8, 500, 1⟩, ⟨2, 20, 600, 1⟩] := by
    rw [controlTxns]
    norm_num [cdataC6, testPidsOf, uniqList, uniqAux]
  have hkept7 : weekKept cdataC6 7 = true := by
    rw [weekKept]
    norm_num [cdataC6, maxSaleDate]
  have hkept14 : weekKept cdataC6 14 = true := by
    rw [weekKept]
    norm_num [cdataC6, maxSaleDate]
  have hcr7 : controlRevenueD cdataC6 7 = 500 := by
    rw [controlRevenueD, if_pos hkept7, hctl]
    norm_num [weekMonday]
  have hcr14 : controlRevenueD cdataC6 14 = 600 := by
    rw [controlRevenueD, if_pos hkept14, hctl]
    norm_num [weekMonday]
  have hrcb : rcbOf cdataC6 pC6 1 = 500 := by
    rw [rcbOf, hvp]
    simp only [List.map_cons, List.map_nil, List.sum_cons, List.sum_nil, List.length_cons,
      List.length_nil, hcr7]
    norm_num
  have hcond : (weekExcludedOf cdataC6 pC6 1 14 || weekNotOurOf cdataC6 pC6 1 14) =
      false := by
    decide
  have hguard : ¬ (rtbOf cdataC6 pC6 1 = 0 ∨ rcbOf cdataC6 pC6 1 = 0) := by
    rw [hrtb, hrcb]
    norm_num
  have hrows : calcProductRows cdataC6 pC6 1 = [recC6] := by
    rw [calcProductRows,
      if_neg (by decide : ¬ ((productInfo cdataC6 1).isEmpty = true))]
    simp only [hptl]
    rw [if_neg (by rw [hvp]; decide), if_neg hguard,
      show availableWeeksOf cdataC6 pC6 1 = [14] from by decide]
    rfl
  have hcalc : calculateRows cdataC6 pC6 = [recC6] := by
    rw [calculateRows, show testPidsOf cdataC6 = [1] from by decide]
    rw [List.flatMap_cons, List.flatMap_nil, hrows, List.append_nil]
  exact ⟨hptl, hvp, hrtb, hrcb, hcr14, hcond, hcalc⟩

/-- C6 witness: on the Scenario D data the test-week row is emitted
    non-excluded with fact revenue 0, baselines R_tb = 1000 and R_cb = 500
    and control revenue 600, and the theorem instantiates to
    effect_pct = -1 - (600/500 - 1) = -6/5 with absolute effect 0. -/
theorem c6_witness :
    recC6 ∈ calculateRows cdataC6 pC6 ∧
    recC6.isExcluded = false ∧
    recC6.factRevenue = 0 ∧
    recC6.rtb = 1000 ∧ recC6.rcb = 500 ∧ recC6.controlFactRevenue = 600 ∧
    recC6.effectRevenuePct = -6/5 ∧
    recC6.absEffectRevenue = 0 := by
  obtain ⟨hptl, hvp, hrtb, hrcb, hcr14, hcond, hcalc⟩ := c6_data_row
  obtain ⟨hex, hf, hcf, _, _⟩ := calcWeekRecord_not_excluded_fields cdataC6 pC6 1 14 hcond
  obtain ⟨_, hbt, hbc⟩ := calcWeekRecord_base_fields cdataC6 pC6 1 14
  have hmem : recC6 ∈ calculateRows cdataC6 pC6 := by
    rw [hcalc]
    exact List.mem_cons_self recC6 []
  have hfr : recC6.factRevenue = 0 := by
    have hf2 : recC6.factRevenue = weeklyRevenueD cdataC6 1 14 := hf
    rw [hf2, show weeklyRevenueD cdataC6 1 14 = 0 from by decide]
  have hexr : recC6.isExcluded = false := hex
  have happ := c6_theorem cdataC6 pC6 recC6 rfl hmem hexr hfr
  have hcfv : recC6.controlFactRevenue = 600 := by
    have h2 : recC6.controlFactRevenue = controlRevenueD cdataC6 14 := hcf
    rw [h2, hcr14]
  have hrcbv : recC6.rcb = 500 := by
    have h2 : recC6.rcb = rcbOf cdataC6 pC6 1 := hbc
    rw [h2, hrcb]
  have hrtbv : recC6.rtb = 1000 := by
    have h2 : recC6.rtb = rtbOf cdataC6 pC6 1 := hbt
    rw [h2, hrtb]
  refine ⟨hmem, hexr, hfr, hrtbv, hrcbv, hcfv, ?_, happ.2⟩
  rw [happ.1, hcfv, hrcbv]
  norm_num

/-- C3 witness: on the Scenario D data all sale prices and quantities are
    nonnegative, and the theorem yields strictly positive baselines on
    every emitted effect row. -/
theorem c3_witness :
    (∀ t ∈ cdataC6.sales, 0 ≤ t.price ∧ 0 ≤ t.quantity) ∧
    (∀ r ∈ calculateRows cdataC6 pC6, 0 < r.rtb ∧ 0 < r.rcb) :=
  ⟨by decide, (c3_theorem cdataC6 pC6 (by decide)).1⟩

end KRLite
